import Mathlib

/-!
# Verification of the isc-radius RADIUS protocol engine

A shallow embedding, in Lean 4, of the core of the `isc-radius` JavaScript
repository: the MD5-chained User-Password obfuscation, the attribute and
packet wire codecs, the dictionary registry, the server default-response
and handler-registration logic, and the client retry loop.  Byte buffers
are modelled as `List Nat` whose elements are byte values; JavaScript
`Buffer` read/write helpers (with their range checks) are modelled
explicitly, and fallible code returns `Except String _`.  The MD5 digest
itself is implemented concretely (RFC 1321) so that concrete packets can
be evaluated end to end.
-/

namespace IscRadius

/-! ## Byte-level helpers (Node `Buffer` primitives)

`writeBytes buf off w` models writing the byte string `w` into `buf`
starting at `off` (the effect of a sequence of in-bounds `Buffer` writes).
-/

/-- Decidable equality for `Except` results (used to evaluate concrete
runs of the fallible operations). -/
instance {ε α : Type} [DecidableEq ε] [DecidableEq α] :
    DecidableEq (Except ε α) := fun x y =>
  match x, y with
  | .ok a, .ok b =>
    if h : a = b then .isTrue (h ▸ rfl)
    else .isFalse (fun hc => h (Except.ok.inj hc))
  | .error a, .error b =>
    if h : a = b then .isTrue (h ▸ rfl)
    else .isFalse (fun hc => h (Except.error.inj hc))
  | .ok _, .error _ => .isFalse (fun hc => Except.noConfusion hc)
  | .error _, .ok _ => .isFalse (fun hc => Except.noConfusion hc)

/-- Overwrite `buf` from position `off` with the bytes `w` (in-bounds splice). -/
def writeBytes (buf : List Nat) (off : Nat) (w : List Nat) : List Nat :=
  buf.take off ++ w ++ buf.drop (off + w.length)

/-- Big-endian byte string of width `n` for the value `v` (`v < 256^n`). -/
def bytesBE : Nat → Nat → List Nat
  | 0, _ => []
  | n + 1, v => (v / 256 ^ n) % 256 :: bytesBE n (v % 256 ^ n)

/-- Big-endian read of `n` bytes of `buf` starting at `off`
(Node `buf.readUIntBE(off, n)`, assuming the offset is in bounds). -/
def readBE (buf : List Nat) (off n : Nat) : Nat :=
  (List.range n).foldl (fun acc i => acc * 256 + buf.getD (off + i) 0) 0

/-- Node `buf.writeUInt8(v, off)`: range-checks the value and offset,
then writes one byte.  Returns the updated buffer and the new offset. -/
def writeUInt8 (buf : List Nat) (v off : Nat) : Except String (List Nat × Nat) :=
  if v ≤ 255 ∧ off + 1 ≤ buf.length then
    .ok (writeBytes buf off [v], off + 1)
  else .error "writeUInt8 out of range"

/-- Node `buf.writeUInt16BE(v, off)`. -/
def writeUInt16BE (buf : List Nat) (v off : Nat) : Except String (List Nat × Nat) :=
  if v < 256 ^ 2 ∧ off + 2 ≤ buf.length then
    .ok (writeBytes buf off (bytesBE 2 v), off + 2)
  else .error "writeUInt16BE out of range"

/-- Node `buf.writeUInt32BE(v, off)`. -/
def writeUInt32BE (buf : List Nat) (v off : Nat) : Except String (List Nat × Nat) :=
  if v < 256 ^ 4 ∧ off + 4 ≤ buf.length then
    .ok (writeBytes buf off (bytesBE 4 v), off + 4)
  else .error "writeUInt32BE out of range"

/-- Node `buf.writeUIntBE(v, off, n)` (1 ≤ n ≤ 6). -/
def writeUIntBE (buf : List Nat) (v off n : Nat) : Except String (List Nat × Nat) :=
  if 1 ≤ n ∧ n ≤ 6 ∧ v < 256 ^ n ∧ off + n ≤ buf.length then
    .ok (writeBytes buf off (bytesBE n v), off + n)
  else .error "writeUIntBE out of range"

/-- Node `src.copy(dst, off)`: copies as many bytes of `src` as fit. -/
def copyInto (src dst : List Nat) (off : Nat) : List Nat :=
  writeBytes dst off (src.take (dst.length - off))

/-- JavaScript `buf.slice(a, b)` (end clamped to the buffer length). -/
def jsSlice (buf : List Nat) (a b : Nat) : List Nat :=
  (buf.take b).drop a

/-! ## MD5 (RFC 1321)

Concrete implementation over `List Nat` bytes; 32-bit words are `Nat`
values reduced `% 2 ^ 32` at every step.
-/

/-- The 64 MD5 sine-derived constants. -/
def md5K : List Nat :=
  [3614090360, 3905402710, 606105819, 3250441966,
   4118548399, 1200080426, 2821735955, 4249261313,
   1770035416, 2336552879, 4294925233, 2304563134,
   1804603682, 4254626195, 2792965006, 1236535329,
   4129170786, 3225465664, 643717713, 3921069994,
   3593408605, 38016083, 3634488961, 3889429448,
   568446438, 3275163606, 4107603335, 1163531501,
   2850285829, 4243563512, 1735328473, 2368359562,
   4294588738, 2272392833, 1839030562, 4259657740,
   2763975236, 1272893353, 4139469664, 3200236656,
   681279174, 3936430074, 3572445317, 76029189,
   3654602809, 3873151461, 530742520, 3299628645,
   4096336452, 1126891415, 2878612391, 4237533241,
   1700485571, 2399980690, 4293915773, 2240044497,
   1873313359, 4264355552, 2734768916, 1309151649,
   4149444226, 3174756917, 718787259, 3951481745]

/-- The 64 MD5 per-round left-rotation amounts. -/
def md5S : List Nat :=
  [7, 12, 17, 22, 7, 12, 17, 22, 7, 12, 17, 22, 7, 12, 17, 22,
   5, 9, 14, 20, 5, 9, 14, 20, 5, 9, 14, 20, 5, 9, 14, 20,
   4, 11, 16, 23, 4, 11, 16, 23, 4, 11, 16, 23, 4, 11, 16, 23,
   6, 10, 15, 21, 6, 10, 15, 21, 6, 10, 15, 21, 6, 10, 15, 21]

/-- 32-bit left rotation. -/
def rotl32 (x c : Nat) : Nat :=
  ((x <<< c) % 2 ^ 32) ||| (x >>> (32 - c))

/-- 32-bit complement. -/
def not32 (x : Nat) : Nat := 4294967295 ^^^ x

/-- Little-endian bytes of width `n` for the value `v`. -/
def bytesLE : Nat → Nat → List Nat
  | 0, _ => []
  | n + 1, v => v % 256 :: bytesLE n (v / 256)

/-- Little-endian read of 4 bytes at `off`. -/
def readLE32 (buf : List Nat) (off : Nat) : Nat :=
  buf.getD off 0 + 256 * (buf.getD (off + 1) 0 +
    256 * (buf.getD (off + 2) 0 + 256 * buf.getD (off + 3) 0))

/-- One MD5 step of the compression loop. -/
def md5Step (m : List Nat) (st : Nat × Nat × Nat × Nat) (i : Nat) :
    Nat × Nat × Nat × Nat :=
  let (a, b, c, d) := st
  let f :=
    if i < 16 then (b &&& c) ||| (not32 b &&& d)
    else if i < 32 then (d &&& b) ||| (not32 d &&& c)
    else if i < 48 then b ^^^ c ^^^ d
    else c ^^^ (b ||| not32 d)
  let g :=
    if i < 16 then i
    else if i < 32 then (5 * i + 1) % 16
    else if i < 48 then (3 * i + 5) % 16
    else (7 * i) % 16
  let f := (f + a + md5K.getD i 0 + m.getD g 0) % 2 ^ 32
  (d, (b + rotl32 f (md5S.getD i 0)) % 2 ^ 32, b, c)

/-- Process one 64-byte block, updating the running state. -/
def md5Block (st : Nat × Nat × Nat × Nat) (block : List Nat) :
    Nat × Nat × Nat × Nat :=
  let m := (List.range 16).map (fun j => readLE32 block (4 * j))
  let (a0, b0, c0, d0) := st
  let (a, b, c, d) := (List.range 64).foldl (md5Step m) (a0, b0, c0, d0)
  ((a0 + a) % 2 ^ 32, (b0 + b) % 2 ^ 32, (c0 + c) % 2 ^ 32, (d0 + d) % 2 ^ 32)

/-- Split a byte list into 64-byte blocks (structural recursion on a fuel
bound so that the kernel can evaluate it; `l.length` is always enough fuel). -/
def blocks64Aux : Nat → List Nat → List (List Nat)
  | 0, _ => []
  | _, [] => []
  | fuel + 1, x :: xs => (x :: xs).take 64 :: blocks64Aux fuel ((x :: xs).drop 64)

/-- Split a byte list into 64-byte blocks. -/
def blocks64 (l : List Nat) : List (List Nat) :=
  blocks64Aux l.length l

/-- MD5 padding: append `0x80`, zeros to 56 mod 64, and the 64-bit
little-endian bit length. -/
def md5Pad (msg : List Nat) : List Nat :=
  let padLen := (119 - msg.length % 64) % 64
  msg ++ 128 :: List.replicate padLen 0 ++ bytesLE 8 (8 * msg.length)

/-- The MD5 digest (16 bytes) of a byte string. -/
def MD5 (msg : List Nat) : List Nat :=
  let st := (blocks64 (md5Pad msg)).foldl md5Block
      (1732584193, 4023233417, 2562383102, 271733878)
  bytesLE 4 st.1 ++ bytesLE 4 st.2.1 ++ bytesLE 4 st.2.2.1 ++ bytesLE 4 st.2.2.2

/-! ## String helpers (JS string primitives on the ASCII fragment)

The JS string operations the source uses (`trim`, `split`, `toLowerCase`,
`toUpperCase`, `Number`) are modelled over the underlying character
lists. -/

/-- ASCII whitespace for `String#trim`. -/
def isWs (c : Char) : Bool :=
  c = ' ' ∨ c = '\t' ∨ c = '\n' ∨ c = '\r' ∨ c = '\x0b' ∨ c = '\x0c'

/-- JS `String#trim` (ASCII whitespace). -/
def jsTrim (s : String) : String :=
  ⟨((s.data.dropWhile isWs).reverse.dropWhile isWs).reverse⟩

/-- Split a character list on a separator (JS `split` keeps empty
segments, and an empty input yields one empty segment). -/
def splitOnCharAux (sep : Char) : List Char → List Char → List (List Char)
  | [], acc => [acc.reverse]
  | c :: cs, acc =>
    if c = sep then acc.reverse :: splitOnCharAux sep cs []
    else splitOnCharAux sep cs (c :: acc)

/-- JS `String#split` with a single-character separator. -/
def jsSplit (s : String) (sep : Char) : List String :=
  (splitOnCharAux sep s.data []).map (fun cs => ⟨cs⟩)

/-- The value of a decimal digit string. -/
def digitsVal (cs : List Char) : Nat :=
  cs.foldl (fun a c => a * 10 + (c.toNat - 48)) 0

/-- JS `toLowerCase` on an ASCII character. -/
def jsToLowerChar (c : Char) : Char :=
  if 'A' ≤ c ∧ c ≤ 'Z' then Char.ofNat (c.toNat + 32) else c

/-- JS `String#toLowerCase` (ASCII). -/
def jsToLower (s : String) : String :=
  ⟨s.data.map jsToLowerChar⟩

/-- JS `toUpperCase` on an ASCII character. -/
def jsToUpperChar (c : Char) : Char :=
  if 'a' ≤ c ∧ c ≤ 'z' then Char.ofNat (c.toNat - 32) else c

/-- JS `String#toUpperCase` (ASCII). -/
def jsToUpper (s : String) : String :=
  ⟨s.data.map jsToUpperChar⟩

/-! ## Attribute value codecs (`lib/avalue.js`)

The class hierarchy `AValue / ABuffer / AString / AFixed / ANumeric /
AByte / AShort / AInteger / AInet4 / ADate / AVSA` is rendered as a tagged
variant `AVType` plus a stored representation `AValue`: buffer-backed
classes store (a copy of) their byte buffer, numeric classes store the
decoded number.
-/

/-- The attribute-value variants of `lib/avalue.js`. -/
inductive AVType
  | octets | string | byte | short | integer | ipaddr | date | vsa
  deriving DecidableEq, Repr

/-- Whether the variant derives from `ANumeric` (`isNumeric` checks
`realType.prototype instanceof AV.Numeric`; `ADate` extends `AInteger`). -/
def AVType.isNumeric : AVType → Bool
  | .byte | .short | .integer | .date => true
  | _ => false

/-- Fixed width of the numeric variants (`static get length`). -/
def AVType.numWidth : AVType → Nat
  | .byte => 1
  | .short => 2
  | _ => 4

/-- Minimum accepted buffer length (`bufferCheck`: default 1; fixed-width
classes use their width; `AInet4` is fixed at 4). -/
def AVType.minLen : AVType → Nat
  | .octets | .string | .vsa => 1
  | .ipaddr => 4
  | t => t.numWidth

/-- Maximum accepted buffer length (`bufferCheck`: default 253; fixed-width
classes use their width). -/
def AVType.maxLen : AVType → Nat
  | .octets | .string | .vsa => 253
  | .ipaddr => 4
  | t => t.numWidth

/-- A constructed attribute value: buffer-backed variants keep their bytes,
numeric variants keep the stored number. -/
inductive AValue
  | bytes (b : List Nat)
  | num (width : Nat) (v : Nat)
  deriving DecidableEq, Repr

/-- `fromBuffer` for each variant: `bufferCheck` against the min/max
lengths, then either a stored copy of the buffer (`ABuffer` and its
buffer-backed subclasses) or the big-endian decode (`ANumeric.fromBuffer`,
which reads `readUIntBE(0, length)` and re-checks the range through
`fromValue`; the range re-check always passes). -/
def AVType.fromBuffer (t : AVType) (buf : List Nat) : Except String AValue :=
  if buf.length < t.minLen ∨ t.maxLen < buf.length then
    .error "invalid buffer length"
  else if t.isNumeric then
    .ok (.num t.numWidth (readBE buf 0 t.numWidth))
  else
    .ok (.bytes buf)

/-- `toBuffer`: buffer-backed values return (a copy of) their bytes,
numeric values write their fixed-width big-endian encoding. -/
def AValue.toBuffer : AValue → List Nat
  | .bytes b => b
  | .num w v => bytesBE w v

/-- JavaScript `Number(s)` modelled on the decimal fragment: the empty
string converts to `0`, a non-empty all-digit string to its decimal value,
and anything else to NaN (`none`).  (Signed, fractional, exponent and
hex/octal/binary forms are outside the fragment used by this development.) -/
def jsNumber (s : String) : Option Nat :=
  if s.data = [] then some 0
  else if s.data.all Char.isDigit then some (digitsVal s.data)
  else none

/-- `AInet4.fromValue(string)` (`lib/avalue.js:356`): trim, split on `.`,
convert each segment with `Number`, require exactly four results each
satisfying `x >= 0 && x <= 255` (NaN fails both), then build the 4-byte
buffer and pass it through `fromBuffer` (whose length-4 check passes). -/
def AInet4.fromValue (s : String) : Except String AValue :=
  let value := (jsSplit (jsTrim s) '.').map jsNumber
  if value.length = 4 ∧ value.all (fun x => (x.getD 256) ≤ 255) then
    .ok (.bytes (value.map (fun x => x.getD 0)))
  else
    .error "illegal IP address string"

/-! ## Vendors and dictionary entries (`lib/vendor.js`, `lib/dictent.js`) -/

/-- A RADIUS vendor: name, 32-bit Enterprise ID, and the VSA header field
widths (`typeSize ∈ {1,2,4}`, `lengthSize ∈ {0,1,2}`, both defaulting
to 1). -/
structure Vendor where
  name : String
  id : Nat
  typeSize : Nat := 1
  lengthSize : Nat := 1
  deriving DecidableEq, Repr

/-- The textual type tag table of `lib/dictent.js` (`typeMap`);
unlisted tags are rejected by the `DictionaryEntry` constructor. -/
def typeMap (tag : String) : Option AVType :=
  match tag with
  | "string" => some .string
  | "octets" => some .octets
  | "uint8" | "byte" => some .byte
  | "uint16" | "short" => some .short
  | "integer" => some .integer
  | "uint64" | "integer64" => some .octets
  | "signed" => some .integer
  | "ipaddr" => some .ipaddr
  | "ipv4prefix" | "ipv6addr" | "ipv6prefix" | "ifid" => some .octets
  | "date" => some .date
  | "tlv" | "combo-ip" | "abinary" | "ether" | "struct" => some .octets
  | "vsa" => some .vsa
  | _ => none

/-- An attribute descriptor (`DictionaryEntry`).  For VSAs the constructor
moves the declared id into `sub_id`, forces `id := 26`, and keeps the real
codec in `sub_type` (the outer `type` becomes `vsa`).  The `values` enum
table is not modelled (no claim depends on it). -/
structure DictionaryEntry where
  name : String
  id : Nat
  sub_id : Option Nat := none
  vendor : Option Vendor := none
  type : AVType
  sub_type : Option AVType := none
  flags : List (String × Nat) := []
  deriving DecidableEq, Repr

/-- `dict.flags.encrypt` (property lookup in the frozen flags object). -/
def DictionaryEntry.encrypt (e : DictionaryEntry) : Option Nat :=
  (e.flags.find? (fun p => p.1 = "encrypt")).map Prod.snd

/-- `dict.realType` (`sub_type || type`). -/
def DictionaryEntry.realType (e : DictionaryEntry) : AVType :=
  e.sub_type.getD e.type

/-- `dict.isVSA` (`type.prototype === AV.VSA.prototype`). -/
def DictionaryEntry.isVSA (e : DictionaryEntry) : Bool :=
  e.type = .vsa

/-- Parse one `key=value` flag (`flag.split('=')`, value defaulting to 1,
then `+value`; only decimal values are modelled, mirroring `jsNumber`). -/
def parseFlag (flag : String) : String × Nat :=
  match jsSplit flag '=' with
  | [k] => (k, 1)
  | k :: v :: _ => (k, (jsNumber v).getD 0)
  | [] => ("", 1)

/-- Insert-or-replace into an association list (JS object assignment). -/
def upsert (l : List (String × Nat)) (k : String) (v : Nat) :
    List (String × Nat) :=
  if l.any (fun p => p.1 = k) then
    l.map (fun p => if p.1 = k then (k, v) else p)
  else l ++ [(k, v)]

/-- The `octets[N]` shape test (`/^octets\[\d+\]$/`). -/
def isOctetsShape (s : String) : Bool :=
  s.data.take 7 = "octets[".data && s.data.getLast? = some ']' &&
    (let mid := (s.data.drop 7).dropLast
     mid ≠ [] && mid.all Char.isDigit)

/-- The `DictionaryEntry` constructor (`lib/dictent.js:54`): lower-case and
resolve the type tag (an `octets[N]` shape collapses to `octets`), then for
vendor entries remap `(id, type)` to `(26, vsa)` keeping the originals in
`sub_id` / `sub_type`, and parse the comma-separated flags into an
object-like mapping (later duplicates win). -/
def mkEntry (vendor : Option Vendor) (name : String) (id : Nat)
    (typeTag : String) (flagsStr : Option String := none) :
    Except String DictionaryEntry :=
  let tag := jsToLower typeTag
  let tag := if isOctetsShape tag then "octets" else tag
  match typeMap tag with
  | none => .error "unknown dictionary type entry"
  | some t =>
    let flags := match flagsStr with
      | none => []
      | some f => (jsSplit f ',').foldl
          (fun acc fl => let p := parseFlag fl; upsert acc p.1 p.2) []
    match vendor with
    | some v =>
      .ok { name := name, id := 26, sub_id := some id, vendor := some v,
            type := .vsa, sub_type := some t, flags := flags }
    | none =>
      .ok { name := name, id := id, type := t, flags := flags }

/-! ## The dictionary registry (`lib/dictionary.js`)

The process-wide mutable maps (`dict`, `vendors`, `vsas`) become an
explicit `DictState` threaded through the lookups.  JS `Map` objects are
modelled as association lists with insert-or-replace (`mapSet`); map keys
may be numbers or strings (`DKey`).
-/

/-- A JS `Map` key of the dictionary maps: a number or a string. -/
inductive DKey
  | num (n : Nat)
  | str (s : String)
  deriving DecidableEq, Repr

/-- `Map#get`. -/
def mapGet {κ α : Type} [DecidableEq κ] (l : List (κ × α)) (k : κ) :
    Option α :=
  (l.find? (fun p => p.1 = k)).map Prod.snd

/-- `Map#has`. -/
def mapHas {κ α : Type} [DecidableEq κ] (l : List (κ × α)) (k : κ) : Bool :=
  l.any (fun p => p.1 = k)

/-- `Map#set`: replace the binding in place if the key is present, else
append.  (A JS `Map` never holds duplicate keys, so replacing the first
occurrence is the map semantics.) -/
def mapSet {κ α : Type} [DecidableEq κ] : List (κ × α) → κ → α → List (κ × α)
  | [], k, v => [(k, v)]
  | p :: l, k, v => if p.1 = k then (k, v) :: l else p :: mapSet l k v

/-- The registry's global state: the id/name → entry map, the vendor map,
and the per-vendor VSA tables. -/
structure DictState where
  dict : List (DKey × DictionaryEntry) := []
  vendors : List (DKey × Vendor) := []
  vsas : List (Nat × List (Nat × DictionaryEntry)) := []
  deriving DecidableEq, Repr

namespace Dictionary

/-- `addAttributeSpec` (`lib/dictionary.js:372`): build the entry, file it
in the vendor's VSA table (when a vendor scope is given and its table
exists) or the global numeric map, and always also under its lower-cased
name. -/
def addAttributeSpec (st : DictState) (vendor : Option Vendor)
    (name : String) (id : Nat) (typeTag : String)
    (flagsStr : Option String := none) : Except String DictState := do
  let ent ← mkEntry vendor name id typeTag flagsStr
  let st :=
    match vendor with
    | some v =>
      if mapHas st.vsas v.id then
        { st with vsas := (mapSet st.vsas v.id
            (mapSet ((mapGet st.vsas v.id).getD []) (ent.sub_id.getD 0) ent)) }
      else st
    | none => { st with dict := mapSet st.dict (.num ent.id) ent }
  return { st with dict := mapSet st.dict (.str (jsToLower name)) ent }

/-- The `Vendor` constructor for a synthesized vendor (no `format=` extra
fields, so the default widths 1/1 stand); only the 32-bit id range check
can fail. -/
def mkVendor (name : String) (id : Nat) : Except String Vendor :=
  if id < 2 ^ 32 then .ok { name := name, id := id }
  else .error "Vendor id must be a 32 bit unsigned integer"

/-- `addVendor` (`lib/dictionary.js:412`): reject duplicate ids, create the
vendor's empty VSA table, and file the vendor under its id and lower-cased
name. -/
def addVendor (st : DictState) (name : String) (id : Nat) :
    Except String DictState := do
  if mapHas st.vendors (.num id) then
    .error "duplicate VENDOR entry"
  let v ← mkVendor name id
  let st := { st with vsas := mapSet st.vsas id [] }
  return { st with vendors := (mapSet (mapSet st.vendors (.num id) v)
      (.str (jsToLower name)) v) }

/-- `Dictionary.vendor(id)` (`lib/dictionary.js:601`): synthesize a default
`Vendor<id>` on first lookup, then return the stored vendor. -/
def vendor (st : DictState) (id : Nat) : Except String (Vendor × DictState) := do
  let st ←
    if mapHas st.vendors (.num id) then pure st
    else addVendor st s!"Vendor{id}" id
  match mapGet st.vendors (.num id) with
  | some v => return (v, st)
  | none => .error "vendor lookup failed"

/-- `Dictionary.get(id)` (`lib/dictionary.js:566`): strings are looked up
lower-cased (never synthesizing); numeric ids are range-checked to 1..255
and synthesize an `Unknown-Attribute-<id>` octets entry on first lookup. -/
def get (st : DictState) (k : DKey) : Except String (DictionaryEntry × DictState) := do
  match k with
  | .str s =>
    match mapGet st.dict (.str (jsToLower s)) with
    | some e => return (e, st)
    | none => .error "unrecognised attribute name"
  | .num id =>
    if id < 1 ∨ 255 < id then
      .error "dictionary lookup value out of range"
    else do
      let st ←
        if mapHas st.dict (.num id) then pure st
        else addAttributeSpec st none s!"Unknown-Attribute-{id}" id "octets"
      match mapGet st.dict (.num id) with
      | some e => return (e, st)
      | none => .error "dictionary lookup failed"

/-- `Dictionary.vsa(vendor_id, sub_id)` (`lib/dictionary.js:531`): ensure
the vendor exists (possibly synthesizing it), then synthesize a
`<Vendor>-Unknown-Attribute-<sub_id>` octets entry on first lookup and
return the entry from the vendor's VSA table.  (In the source the local
`dict` alias and the registry share one `Map` object, so the lookup after
`addAttributeSpec` sees the addition; here the updated state is re-read.) -/
def vsa (st : DictState) (vendor_id sub_id : Nat) :
    Except String (DictionaryEntry × DictState) := do
  let (v, st) ← vendor st vendor_id
  match mapGet st.vsas v.id with
  | none => .error "TypeError: vsa table missing"
  | some inner =>
    let unknownName := s!"{v.name}-Unknown-Attribute-{sub_id}"
    let st ←
      if mapHas inner sub_id then pure st
      else addAttributeSpec st (some v) unknownName sub_id "octets"
    match mapGet ((mapGet st.vsas v.id).getD []) sub_id with
    | some e => return (e, st)
    | none => .error "vsa lookup failed"

end Dictionary

/-! ## The `Code` enumeration (`lib/code.js`)

`Code` objects are interned per numeric value, so a `Code` value is
modelled by its number; a static property access `Code.<NAME>` that finds
no property yields JS `undefined`, modelled as `none`.
-/

/-- The `codeTable` of `lib/code.js`. -/
def codeTable : List (Nat × String) :=
  [(1, "Access-Request"), (2, "Access-Accept"), (3, "Access-Reject"),
   (4, "Accounting-Request"), (5, "Accounting-Response"),
   (11, "Access-Challenge"), (12, "Status-Server"), (13, "Status-Client"),
   (40, "Disconnect-Request"), (41, "Disconnect-ACK"), (42, "Disconnect-NAK"),
   (43, "CoA-Request"), (44, "CoA-ACK"), (45, "CoA-NAK")]

/-- JS `String#replace` with a string pattern: replaces only the first
occurrence. -/
def jsReplaceFirst (s : String) (pat rep : Char) : String :=
  match s.toList.findIdx? (fun c => c = pat) with
  | none => s
  | some i => ⟨(s.toList.take i) ++ rep :: s.toList.drop (i + 1)⟩

/-- `Code[value]`: the per-number static properties. -/
def Code.byNum (n : Nat) : Option Nat :=
  if codeTable.any (fun p => p.1 = n) then some n else none

/-- `Code.<NAME>`: the per-name static properties, created from
`name.toUpperCase().replace('-', '_')` (first hyphen only). -/
def Code.staticGet (name : String) : Option Nat :=
  mapGet (codeTable.map
    (fun p => (jsReplaceFirst (jsToUpper p.2) '-' '_', p.1))) name

/-! ## User-Password obfuscation (`lib/attribute.js:202`)

RFC 2865 §5.2: the password is zero-padded to a multiple of 16 and each
16-byte chunk is XORed with `MD5(secret ∥ previous-ciphertext-chunk)`
(the request authenticator standing in for chunk −1).  The index loops of
the source become folds over the 16-byte chunk list.
-/

/-- Split a byte list into 16-byte chunks (fuel-structural; `l.length` is
always enough fuel). -/
def chunks16Aux : Nat → List Nat → List (List Nat)
  | 0, _ => []
  | _, [] => []
  | fuel + 1, x :: xs => (x :: xs).take 16 :: chunks16Aux fuel ((x :: xs).drop 16)

/-- Split a byte list into 16-byte chunks. -/
def chunks16 (l : List Nat) : List (List Nat) :=
  chunks16Aux l.length l

/-- `xorBlock`: byte-wise XOR of two 16-byte blocks. -/
def xor16 (s b : List Nat) : List Nat :=
  List.zipWith (fun x y => x ^^^ y) s b

/-- The encode chain: chunk `i` of the ciphertext is plaintext chunk `i`
XOR `MD5(secret ∥ c_(i-1))`, seeded with the authenticator. -/
def encodeChunks (secret : List Nat) : List Nat → List (List Nat) → List (List Nat)
  | _, [] => []
  | prev, p :: ps =>
    let c := xor16 p (MD5 (secret ++ prev))
    c :: encodeChunks secret c ps

/-- The decode chain: plaintext chunk `i` is ciphertext chunk `i` XOR
`MD5(secret ∥ c_(i-1))`, the previous chunk taken from the ciphertext. -/
def decodeChunks (secret : List Nat) : List Nat → List (List Nat) → List (List Nat)
  | _, [] => []
  | prev, c :: cs => xor16 c (MD5 (secret ++ prev)) :: decodeChunks secret c cs

/-- `stripTrailingNULs` (`lib/attribute.js:193`): drop the trailing zero
bytes (the source's backwards scan then `slice(0, n)`). -/
def stripTrailingNULs (b : List Nat) : List Nat :=
  (b.reverse.dropWhile (fun x => x = 0)).reverse

/-- `encodeMD5(password, secret, authenticator)`: round the length up with
the source's `(length + 15) & 0xf0` mask, zero-pad, and run the XOR
chain. -/
def encodeMD5 (password secret authenticator : List Nat) : List Nat :=
  let n := (password.length + 15) &&& 240
  let p := password.take n ++ List.replicate (n - password.length) 0
  (encodeChunks secret authenticator (chunks16 p)).flatten

/-- `decodeMD5(cipher, secret, authenticator)`: reject lengths that are
not a multiple of 16 or exceed 128, invert the chain, and strip trailing
zero bytes.  (The source finally converts the bytes to a UTF-8 string;
the string is modelled by its bytes.) -/
def decodeMD5 (cipher secret authenticator : List Nat) : Except String (List Nat) :=
  if cipher.length % 16 ≠ 0 ∨ 128 < cipher.length then
    .error "illegal encrypted password length"
  else
    .ok (stripTrailingNULs ((decodeChunks secret authenticator (chunks16 cipher)).flatten))

/-! ## Attributes (`lib/attribute.js`) -/

/-- An attribute: its dictionary descriptor and its constructed value. -/
structure Attribute where
  dict : DictionaryEntry
  avalue : AValue
  deriving DecidableEq, Repr

/-- `Attribute#toWire` (`lib/attribute.js:334`): encrypt if flagged, check
the room left in the buffer, write the standard `id | length` header, the
optional VSA headers (vendor id, `sub_id` over `typeSize` bytes, and —
when `lengthSize` is non-zero — the clamped data length), then copy the
data.  A missing `sub_id` (`undefined` passed to `writeUIntBE`) throws. -/
def Attribute.toWire (a : Attribute) (buf : List Nat) (offset : Nat)
    (secret authenticator : List Nat) : Except String (List Nat × Nat) := do
  let dict := a.dict
  let vendor := dict.vendor
  let abuf := a.avalue.toBuffer
  let abuf := if dict.encrypt = some 1 then encodeMD5 abuf secret authenticator
              else abuf
  let length := 2 + abuf.length +
    (match vendor with
     | some v => 4 + v.typeSize + v.lengthSize
     | none => 0)
  if buf.length ≤ offset + length then
    .error "attributes will not fit in buffer"
  else do
    let (buf, offset) ← writeUInt8 buf dict.id offset
    let (buf, offset) ← writeUInt8 buf length offset
    let (buf, offset) ←
      match vendor with
      | none => pure (buf, offset)
      | some v => do
        let (buf, offset) ← writeUInt32BE buf v.id offset
        match dict.sub_id with
        | none => .error "writeUIntBE value must be a number"
        | some sid => do
          let (buf, offset) ← writeUIntBE buf sid offset v.typeSize
          if v.lengthSize ≠ 0 then
            writeUIntBE buf (min abuf.length 255) offset v.lengthSize
          else pure (buf, offset)
    return (copyInto abuf buf offset, offset + abuf.length)

/-- `Attribute.fromWire` (`lib/attribute.js:387`): check the framing
(`buffer[1]` must equal the slice length), resolve the dictionary entry;
for VSAs read the vendor header and re-resolve through `Dictionary.vsa`,
trimming the data to the sub-attribute (the source also rewrites
`buffer[1]`, a mutation visible only inside bytes the caller has already
consumed, so it is not modelled).  The `realType.minimumLength` /
`maximumLength` comparisons of the source read properties that no codec
class defines, so in JS they are comparisons with `undefined` and never
reject; the actual length checks happen in the `Attribute` constructor's
`fromBuffer`.  An encrypted body is run through `decodeMD5`; the
constructor then routes the resulting string through `fromValue` (only
string-typed encrypted attributes are modelled — the reference
dictionaries' only `encrypt=1` attribute, User-Password, has type
string). -/
def Attribute.fromWire (st : DictState) (buffer : List Nat)
    (secret authenticator : List Nat) : Except String (Attribute × DictState) := do
  if buffer.length < 2 then
    .error "invalid length for attribute buffer"
  else do
    let id := buffer.getD 0 0
    let length := buffer.getD 1 0
    if buffer.length ≠ length then
      .error "length mismatch in attribute buffer"
    else do
      let (dict, st) ← Dictionary.get st (.num id)
      let data := buffer.drop 2
      let (dict, data, st) ←
        if dict.isVSA then do
          if data.length < 4 then
            .error "VSA buffer too short to encode vendor"
          else do
            let vendor_id := readBE data 0 4
            let (vendor, st) ← Dictionary.vendor st vendor_id
            let typeSize := vendor.typeSize
            let lengthSize := vendor.lengthSize
            if data.length < 4 + typeSize + lengthSize then
              .error "VSA buffer too short to encode id and length"
            else do
              let sub_id := readBE data 4 typeSize
              let sub_length :=
                if lengthSize ≠ 0 then readBE data (4 + typeSize) lengthSize
                else buffer.length - (4 + typeSize)
              let offset := 4 + typeSize + lengthSize
              let (dict, st) ← Dictionary.vsa st vendor_id sub_id
              pure (dict, jsSlice data offset (offset + sub_length), st)
        else pure (dict, data, st)
      match dict.encrypt with
      | some 1 => do
        let data ← decodeMD5 data secret authenticator
        if dict.realType = .string then
          match AVType.fromBuffer .string data with
          | .ok v => return ({ dict := dict, avalue := v }, st)
          | .error e => .error e
        else .error "encrypted attribute type not modelled"
      | some _ => .error "attribute uses unsupported encryption scheme"
      | none =>
        match dict.realType.fromBuffer data with
        | .ok v => return ({ dict := dict, avalue := v }, st)
        | .error e => .error e

/-! ## Attribute lists (`lib/attrlist.js`) -/

/-- An ordered, optionally read-only list of attributes. -/
structure AttributeList where
  attrs : List Attribute
  readonly : Bool := false
  deriving DecidableEq, Repr

/-- `parseAttributes` (`lib/attrlist.js:28`): scan the buffer from
`offset`; while bytes remain, if more than two remain, read the length
byte, slice the attribute, parse it and advance by that length.  When one
or two bytes remain the loop body is skipped without advancing, so the
source loops forever; each iteration consumes one unit of fuel and `none`
means the fuel ran out (the loop did not terminate within it). -/
def parseAttributesAux (st : DictState) (buf secret authenticator : List Nat) :
    Nat → Nat → List Attribute → DictState →
    Option (Except String (List Attribute × DictState))
  | 0, _, _, _ => none
  | fuel + 1, n, attrs, st' =>
    if n < buf.length then
      if 2 < buf.length - n then
        let len := buf.getD (n + 1) 0
        let data := (buf.drop n).take len
        match Attribute.fromWire st' data secret authenticator with
        | .error e => some (.error e)
        | .ok (attr, st'') =>
          parseAttributesAux st buf secret authenticator fuel (n + len)
            (attrs ++ [attr]) st''
      else
        parseAttributesAux st buf secret authenticator fuel n attrs st'
    else some (.ok (attrs, st'))

/-- `parseAttributes(buf, offset, secret, authenticator)`. -/
def parseAttributes (st : DictState) (buf : List Nat) (offset : Nat)
    (secret authenticator : List Nat) (fuel : Nat) :
    Option (Except String (List Attribute × DictState)) :=
  parseAttributesAux st buf secret authenticator fuel offset [] st

/-- `AttributeList.fromWire` (`lib/attrlist.js:133`): parse and freeze. -/
def AttributeList.fromWire (st : DictState) (buf : List Nat) (offset : Nat)
    (secret authenticator : List Nat) (fuel : Nat) :
    Option (Except String (AttributeList × DictState)) :=
  match parseAttributes st buf offset secret authenticator fuel with
  | none => none
  | some (.error e) => some (.error e)
  | some (.ok (attrs, st)) => some (.ok ({ attrs := attrs, readonly := true }, st))

/-- `AttributeList#toWire` (`lib/attrlist.js:116`): serialize the
attributes in order, threading the offset. -/
def AttributeList.toWire (l : AttributeList) (buf : List Nat) (offset : Nat)
    (secret authenticator : List Nat) : Except String (List Nat × Nat) :=
  l.attrs.foldlM
    (fun bo a => Attribute.toWire a bo.1 bo.2 secret authenticator)
    (buf, offset)

/-! ## Packets (`lib/packet.js`) -/

/-- A RADIUS packet (code stored as its numeric value — `Code` objects are
interned per number). -/
structure RadiusPacket where
  code : Nat
  identifier : Nat
  authenticator : List Nat
  attributes : AttributeList
  deriving DecidableEq, Repr

/-- The `RadiusPacket` constructor checks (`parseCode` / `parseId` /
`parseAuthenticator`): the code must be a known `Code` (an `undefined`
from `Code[buf[0]]` fails the lookup), the identifier an 8-bit integer,
the authenticator exactly 16 bytes. -/
def RadiusPacket.build (code : Option Nat) (id : Nat)
    (authenticator : List Nat) (attrs : AttributeList) :
    Except String RadiusPacket :=
  match code with
  | none => .error "Code lookup for unknown value"
  | some c =>
    if ¬ codeTable.any (fun p => p.1 = c) then
      .error "Code lookup for unknown value"
    else if 255 < id then
      .error "id must be an 8-bit unsigned integer"
    else if authenticator.length ≠ 16 then
      .error "authenticator length incorrect"
    else
      .ok { code := c, identifier := id, authenticator := authenticator,
            attributes := attrs }

/-- `RadiusPacket#toWire` (`lib/packet.js:249`): write code, identifier, a
dummy length, the authenticator and the attributes into a fresh 4096-byte
buffer, back-patch the length, truncate, and for a response overwrite
bytes 4..20 with `MD5(buffer ∥ secret)` (the buffer still holding the
request authenticator). -/
def RadiusPacket.toWire (p : RadiusPacket) (secret : List Nat)
    (response : Bool := true) : Except String (List Nat) := do
  let buffer := List.replicate 4096 0
  let (buffer, offset) ← writeUInt8 buffer p.code 0
  let (buffer, offset) ← writeUInt8 buffer p.identifier offset
  let length_offset := offset
  let (buffer, offset) ← writeUInt16BE buffer 0 length_offset
  let authen_offset := offset
  let buffer := copyInto p.authenticator buffer authen_offset
  let offset := offset + 16
  let (buffer, offset) ← p.attributes.toWire buffer offset secret p.authenticator
  let length := offset
  let (buffer, _) ← writeUInt16BE buffer length length_offset
  let buffer := buffer.take length
  if response then
    return copyInto (MD5 (buffer ++ secret)) buffer authen_offset
  else
    return buffer

/-- `RadiusPacket.fromWire` (`lib/packet.js:297`): require at least 20
bytes and a declared length no larger than the buffer, then read code,
identifier and authenticator and parse the attribute stream from offset
20 (the source parses to the end of the provided buffer).  The result is
the frozen packet; `none` propagates the attribute loop's
non-termination. -/
def RadiusPacket.fromWire (st : DictState) (buf secret : List Nat)
    (fuel : Nat) : Option (Except String (RadiusPacket × DictState)) :=
  if buf.length < 20 then some (.error "RADIUS buffer too short")
  else if buf.length < readBE buf 2 2 then
    some (.error "RADIUS buffer length mismatch")
  else
    match AttributeList.fromWire st buf 20 secret (jsSlice buf 4 20) fuel with
    | none => none
    | some (.error e) => some (.error e)
    | some (.ok (attrs, st)) =>
      match RadiusPacket.build (Code.byNum (buf.getD 0 0)) (buf.getD 1 0)
          (jsSlice buf 4 20) attrs with
      | .error e => some (.error e)
      | .ok pkt => some (.ok (pkt, st))

/-! ## Server engine (`lib/server.js`)

The auth/acct socket role, the default-response synthesis, the handler
chain, and the argument checks of `RadiusServer#use`.  Handlers are
modelled as functions from `(req, res)` to an `Except` of (truthiness of
the returned value, the possibly-mutated response).
-/

/-- The socket role passed to `startServer`. -/
inductive SocketType
  | auth | acct
  deriving DecidableEq, Repr

/-- A registered handler: optional `auth` and `acct` hooks. -/
structure Handler where
  auth : Option (RadiusPacket → RadiusPacket → Except String (Bool × RadiusPacket)) := none
  acct : Option (RadiusPacket → RadiusPacket → Except String (Bool × RadiusPacket)) := none

/-- `defaultResponse(type, req)` (`lib/server.js:22`): pick the response
code by comparing `req.code` against the `Code` static properties the
source names — including the non-existent `Code.SERVER_STATUS`, whose
lookup yields `undefined` and therefore never matches —, and when one is
found, build a packet with the request's identifier and authenticator and
copy the request's Proxy-State attributes onto it. -/
def defaultResponse (st : DictState) (type : SocketType) (req : RadiusPacket) :
    Except String (Option (RadiusPacket × DictState)) := do
  let res_code : Option Nat :=
    match type with
    | .auth =>
      if some req.code = Code.staticGet "ACCESS_REQUEST" then
        Code.staticGet "ACCESS_REJECT"
      else if some req.code = Code.staticGet "SERVER_STATUS" then
        Code.staticGet "ACCESS_ACCEPT"
      else none
    | .acct =>
      if some req.code = Code.staticGet "ACCOUNTING_REQUEST" then
        Code.staticGet "ACCOUNTING_RESPONSE"
      else none
  match res_code with
  | none => return none
  | some rc => do
    let res ← RadiusPacket.build (some rc) req.identifier req.authenticator
        { attrs := [], readonly := false }
    let (psDict, st) ← Dictionary.get st (.str "Proxy-State")
    let ps := req.attributes.attrs.filter (fun a => a.dict = psDict)
    return some
      ({ res with attributes := { attrs := res.attributes.attrs ++ ps,
                                  readonly := false } }, st)

/-- `invokeHandlers` (`lib/server.js:55`): run each registered hook of the
socket's role in order on `(req, res)`; a truthy return short-circuits; a
raise aborts the chain. -/
def invokeHandlers (req : RadiusPacket) (type : SocketType) :
    List Handler → RadiusPacket → Except String RadiusPacket
  | [], res => .ok res
  | h :: hs, res =>
    match (match type with | .auth => h.auth | .acct => h.acct) with
    | none => invokeHandlers req type hs res
    | some f => do
      let (truthy, res) ← f req res
      if truthy then .ok res else invokeHandlers req type hs res

/-- `getResponse` (`lib/server.js:66`): no default response means the
datagram is dropped (`return` with no value); otherwise the handler chain
runs unless the request is a Status-Server packet (this check uses the
correctly-spelled `Code.STATUS_SERVER`), and a raising handler suppresses
the response. -/
def getResponse (st : DictState) (type : SocketType) (req : RadiusPacket)
    (handlers : List Handler) :
    Except String (Option (RadiusPacket × DictState)) := do
  match ← defaultResponse st type req with
  | none => return none
  | some (res, st) =>
    if some req.code ≠ Code.staticGet "STATUS_SERVER" then
      match invokeHandlers req type handlers res with
      | .ok res => return some (res, st)
      | .error _ => return none
    else
      return some (res, st)

/-- The shape of a property held by an argument to `RadiusServer#use`:
a function, or some non-function value. -/
inductive JSProp
  | fn | nonfn
  deriving DecidableEq, Repr

/-- An argument object for `RadiusServer#use`: its optional `auth` and
`acct` properties (`none` means the property is absent). -/
structure HandlerArg where
  auth : Option JSProp := none
  acct : Option JSProp := none
  deriving DecidableEq, Repr

/-- The `typeof` class of the argument passed to `RadiusServer#use`. -/
inductive UseArg
  | callable (h : HandlerArg)
  | obj (h : HandlerArg)
  | primitive
  deriving Repr

/-- What `RadiusServer#use` returns: a `TypeError` **value** (the source
`return new TypeError(...)` — not a throw) or the server itself. -/
inductive UseRet
  | typeErrorVal (msg : String)
  | server
  deriving DecidableEq, Repr

/-- `RadiusServer#use` (`lib/server.js:201`): non-function non-object
arguments, and `auth`/`acct` properties that exist but are not functions,
cause a `TypeError` to be **returned** (the handler list is left alone);
otherwise the handler is appended. -/
def RadiusServer.use (handlers : List HandlerArg) (arg : UseArg) :
    UseRet × List HandlerArg :=
  match arg with
  | .primitive => (.typeErrorVal "handler must be a function or object", handlers)
  | .callable h | .obj h =>
    if h.auth = some .nonfn then
      (.typeErrorVal "handler.auth must be a function or undefined", handlers)
    else if h.acct = some .nonfn then
      (.typeErrorVal "handler.acct must be a function or undefined", handlers)
    else
      (.server, handlers ++ [h])

/-! ## Client retry loop (`lib/client.js`)

The `send()` / timer recursion of `_request`, on the path where the
datagram for attempt `i` is answered acceptably within its delay window
iff `accepted i` (the socket's message-validation steps are condensed
into that predicate; they are not this development's subject).  The
recursion is structural on the number of attempts remaining
(`max - attempt`, where `max = retry * server_count`); the source guard
`++attempt < max` is `2 ≤ remaining`.
-/

/-- One `send()` activation at `attempt`, with `remaining = max - attempt`
attempts still allowed: record the round-robin server index
`attempt % slen`, stop successfully if this window is answered, otherwise
recurse or time out.  Returns the server indices sent to, and whether the
loop ended by rejecting with the timeout error. -/
def sendSteps (slen : Nat) (accepted : Nat → Bool) :
    Nat → Nat → List Nat × Bool
  | _, 0 => ([], false)
  | attempt, 1 =>
    let n := attempt % slen
    if accepted attempt then ([n], false) else ([n], true)
  | attempt, remaining + 2 =>
    let n := attempt % slen
    if accepted attempt then ([n], false)
    else
      let (s, t) := sendSteps slen accepted (attempt + 1) (remaining + 1)
      (n :: s, t)

/-- `_request`'s full run: `max = retry * server_count` attempts starting
at 0. -/
def clientRun (slen retry : Nat) (accepted : Nat → Bool) : List Nat × Bool :=
  sendSteps slen accepted 0 (retry * slen)

/-! ## Buffer aliasing in the packet constructor (`lib/packet.js:44,128`)

To express the observable effect of mutating the caller's authenticator
buffer after constructing a packet, buffers live in a tiny heap (a list
of byte lists indexed by reference).  `parseAuthenticator` returns the
caller's buffer **reference** unchanged, and the `authenticator` getter
evaluates `authenticator.slice(0)` — a Node `Buffer#slice`, which is a
view sharing the same memory, so the bytes it exposes are whatever the
heap currently holds at that reference.
-/

/-- A heap of byte buffers, addressed by index. -/
def BufHeap : Type := List (List Nat)

/-- The bytes currently stored at reference `r`. -/
def heapRead (h : BufHeap) (r : Nat) : List Nat :=
  (List.getD h r [])

/-- Mutate one byte of the buffer at reference `r` (JS `a[i] = v`). -/
def heapWriteByte (h : BufHeap) (r i v : Nat) : BufHeap :=
  List.set h r ((List.getD h r []).set i v)

/-- `parseAuthenticator` (`lib/packet.js:44`): length-check the buffer and
return the same reference (no copy is taken on set). -/
def parseAuthenticatorRef (h : BufHeap) (r : Nat) : Except String Nat :=
  if (heapRead h r).length ≠ 16 then .error "authenticator length incorrect"
  else .ok r

/-- The `authenticator` getter (`lib/packet.js:129`,
`() => authenticator.slice(0)`): a fresh `Buffer` object whose bytes are
the current bytes at the stored reference (`slice` shares memory). -/
def authenticatorAccessor (h : BufHeap) (r : Nat) : List Nat :=
  heapRead h r

/-! ## Basic facts about the byte-level helpers -/

theorem bytesBE_length (n v : Nat) : (bytesBE n v).length = n := by
  induction n generalizing v with
  | zero => rfl
  | succ n ih => simp [bytesBE, ih]

theorem bytesLE_length (n v : Nat) : (bytesLE n v).length = n := by
  induction n generalizing v with
  | zero => rfl
  | succ n ih => simp [bytesLE, ih]

theorem MD5_length (msg : List Nat) : (MD5 msg).length = 16 := by
  simp [MD5, bytesLE_length]

theorem readBE_succ (buf : List Nat) (off n : Nat) :
    readBE buf off (n + 1) = readBE buf off n * 256 + buf.getD (off + n) 0 := by
  simp [readBE, List.range_succ]

/-- The big-endian value of a byte string. -/
def beVal (w : List Nat) : Nat :=
  w.foldl (fun acc b => acc * 256 + b) 0

theorem beVal_aux (w : List Nat) (a : Nat) :
    w.foldl (fun acc b => acc * 256 + b) a = a * 256 ^ w.length + beVal w := by
  induction w generalizing a with
  | nil => simp [beVal]
  | cons b w ih =>
    have hbv : beVal (b :: w) = b * 256 ^ w.length + beVal w := by
      have h0 : beVal (b :: w) = w.foldl (fun acc b => acc * 256 + b) b := by
        simp [beVal]
      rw [h0, ih b]
    simp only [List.foldl_cons, List.length_cons, ih (a * 256 + b), hbv]
    ring

theorem beVal_cons (b : Nat) (w : List Nat) :
    beVal (b :: w) = b * 256 ^ w.length + beVal w := by
  have h0 : beVal (b :: w) = w.foldl (fun acc b => acc * 256 + b) b := by
    simp [beVal]
  rw [h0, beVal_aux w b]

theorem beVal_bytesBE (n v : Nat) (hv : v < 256 ^ n) :
    beVal (bytesBE n v) = v := by
  induction n generalizing v with
  | zero =>
    have hv0 : v = 0 := Nat.lt_one_iff.mp (by simpa using hv)
    simp [bytesBE, beVal, hv0]
  | succ n ih =>
    have hmod : v % 256 ^ n < 256 ^ n :=
      Nat.mod_lt _ (Nat.pos_pow_of_pos n (by norm_num))
    have hdiv : v / 256 ^ n < 256 :=
      Nat.div_lt_of_lt_mul (by rw [← pow_succ]; exact hv)
    simp only [bytesBE, beVal_cons, bytesBE_length, ih _ hmod,
      Nat.mod_eq_of_lt hdiv]
    rw [Nat.mul_comm (v / 256 ^ n) (256 ^ n)]
    exact Nat.div_add_mod v (256 ^ n)

theorem bytesBE_lt (n v : Nat) : ∀ b ∈ bytesBE n v, b < 256 := by
  induction n generalizing v with
  | zero => simp [bytesBE]
  | succ n ih =>
    intro b hb
    simp only [bytesBE, List.mem_cons] at hb
    rcases hb with h | h
    · exact h ▸ Nat.mod_lt _ (by norm_num)
    · exact ih _ b h

theorem getD_concat (pre w post : List Nat) (i : Nat) (h : i < w.length) :
    (pre ++ w ++ post).getD (pre.length + i) 0 = w.getD i 0 := by
  rw [List.append_assoc, List.getD_append_right _ _ _ _ (Nat.le_add_right _ _),
    Nat.add_sub_cancel_left, List.getD_append _ _ _ _ h]

theorem beVal_snoc (w : List Nat) (b : Nat) :
    beVal (w ++ [b]) = beVal w * 256 + b := by
  simp [beVal, List.foldl_append]

/-- `readBE` over a region that is exactly the byte string `w`. -/
theorem readBE_concat (pre w post : List Nat) :
    readBE (pre ++ w ++ post) pre.length w.length = beVal w := by
  induction w using List.reverseRecOn generalizing post with
  | nil => simp [readBE, beVal]
  | append_singleton w b ih =>
    have hassoc : pre ++ (w ++ [b]) ++ post = pre ++ w ++ ([b] ++ post) := by
      simp
    have hget : (pre ++ (w ++ [b]) ++ post).getD (pre.length + w.length) 0 = b := by
      have := getD_concat pre (w ++ [b]) post w.length (by simp)
      simpa using this
    have hlen : (w ++ [b]).length = w.length + 1 := by simp
    rw [hlen]
    calc readBE (pre ++ (w ++ [b]) ++ post) pre.length (w.length + 1)
        = readBE (pre ++ (w ++ [b]) ++ post) pre.length w.length * 256
            + (pre ++ (w ++ [b]) ++ post).getD (pre.length + w.length) 0 :=
          readBE_succ _ _ _
      _ = beVal w * 256 + b := by rw [hget, hassoc, ih ([b] ++ post)]
      _ = beVal (w ++ [b]) := (beVal_snoc w b).symm

/-- Reading back the big-endian encoding of `v < 256 ^ n`. -/
theorem readBE_bytesBE (pre post : List Nat) (n v : Nat) (hv : v < 256 ^ n) :
    readBE (pre ++ bytesBE n v ++ post) pre.length n = v := by
  have h := readBE_concat pre (bytesBE n v) post
  rw [bytesBE_length] at h
  rw [h, beVal_bytesBE n v hv]

/-! ## The User-Password transform is invertible -/

theorem xor16_length (p b : List Nat) : (xor16 p b).length = min p.length b.length := by
  simp [xor16]

theorem xor16_xor16 (p b : List Nat) (h : p.length ≤ b.length) :
    xor16 (xor16 p b) b = p := by
  induction p generalizing b with
  | nil => simp [xor16]
  | cons x p ih =>
    cases b with
    | nil => simp at h
    | cons y b =>
      have h' : p.length ≤ b.length := by simp at h; omega
      simp only [xor16, List.zipWith_cons_cons]
      refine congrArg₂ _ ?_ (ih b h')
      rw [Nat.xor_assoc, Nat.xor_self, Nat.xor_zero]

/-- Chunks of the encode chain all have length 16 when the plaintext
chunks do. -/
theorem encodeChunks_lengths (secret : List Nat) (ps : List (List Nat))
    (hps : ∀ p ∈ ps, p.length = 16) :
    ∀ prev, ∀ c ∈ encodeChunks secret prev ps, c.length = 16 := by
  induction ps with
  | nil => intro prev c hc; simp [encodeChunks] at hc
  | cons p ps ih =>
    intro prev c hc
    simp only [encodeChunks, List.mem_cons] at hc
    rcases hc with rfl | hc
    · simp [xor16_length, MD5_length, hps p (by simp)]
    · exact ih (fun q hq => hps q (by simp [hq])) _ c hc

/-- Decoding the encode chain chunkwise recovers the plaintext chunks. -/
theorem decodeChunks_encodeChunks (secret : List Nat) (ps : List (List Nat))
    (hps : ∀ p ∈ ps, p.length = 16) :
    ∀ prev, decodeChunks secret prev (encodeChunks secret prev ps) = ps := by
  induction ps with
  | nil => intro prev; simp [encodeChunks, decodeChunks]
  | cons p ps ih =>
    intro prev
    simp only [encodeChunks, decodeChunks]
    refine congrArg₂ _ ?_ (ih (fun q hq => hps q (by simp [hq])) _)
    exact xor16_xor16 p _ (by rw [MD5_length, hps p (by simp)])

theorem chunks16Aux_flatten (fuel : Nat) (l : List Nat) (h : l.length ≤ fuel) :
    (chunks16Aux fuel l).flatten = l := by
  induction fuel generalizing l with
  | zero =>
    have hnil : l = [] := List.length_eq_zero.mp (Nat.le_zero.mp h)
    simp [hnil, chunks16Aux]
  | succ fuel ih =>
    cases l with
    | nil => rfl
    | cons x xs =>
      simp only [chunks16Aux, List.flatten_cons]
      rw [ih _ (by simp at h ⊢; omega), List.take_append_drop]

theorem chunks16_flatten (l : List Nat) : (chunks16 l).flatten = l :=
  chunks16Aux_flatten l.length l le_rfl

theorem chunks16Aux_mem_length (fuel : Nat) (l : List Nat)
    (h : l.length ≤ fuel) (hdvd : 16 ∣ l.length) :
    ∀ c ∈ chunks16Aux fuel l, c.length = 16 := by
  induction fuel generalizing l with
  | zero =>
    intro c hc
    have : l = [] := List.length_eq_zero.mp (Nat.le_zero.mp h)
    simp [this, chunks16Aux] at hc
  | succ fuel ih =>
    intro c hc
    cases l with
    | nil => simp [chunks16Aux] at hc
    | cons x xs =>
      have hlen : 16 ≤ (x :: xs).length := by
        rcases hdvd with ⟨k, hk⟩
        cases k with
        | zero => simp at hk
        | succ k => omega
      simp only [chunks16Aux, List.mem_cons] at hc
      rcases hc with rfl | hc
      · simpa using hlen
      · refine ih _ ?_ ?_ c hc
        · simp only [List.length_drop]; omega
        · rcases hdvd with ⟨k, hk⟩
          exact ⟨k - 1, by simp only [List.length_drop, hk]; cases k <;> simp_all <;> omega⟩

/-- Splitting a concatenation of 16-byte chunks recovers the chunks. -/
theorem chunks16_flatten_inv (cs : List (List Nat))
    (hcs : ∀ c ∈ cs, c.length = 16) : chunks16 cs.flatten = cs := by
  suffices h : ∀ fuel, cs.flatten.length ≤ fuel →
      chunks16Aux fuel cs.flatten = cs from h _ le_rfl
  induction cs with
  | nil => intro fuel _; cases fuel <;> rfl
  | cons c cs ih =>
    intro fuel hf
    have hc : c.length = 16 := hcs c (by simp)
    have hne : c ++ cs.flatten ≠ [] := by
      intro hcon
      have := congrArg List.length hcon
      simp [hc] at this
    cases fuel with
    | zero =>
      exfalso
      simp only [List.flatten_cons, List.length_append, hc] at hf
      omega
    | succ fuel =>
      have hstep : chunks16Aux (fuel + 1) (c ++ cs.flatten)
          = (c ++ cs.flatten).take 16 :: chunks16Aux fuel ((c ++ cs.flatten).drop 16) := by
        cases hcc : c ++ cs.flatten with
        | nil => exact absurd hcc hne
        | cons y ys => rfl
      have htake : (c ++ cs.flatten).take 16 = c := by
        rw [← hc]; exact List.take_left c _
      have hdrop : (c ++ cs.flatten).drop 16 = cs.flatten := by
        rw [← hc]; exact List.drop_left c _
      simp only [List.flatten_cons, hstep, htake, hdrop]
      refine congrArg _ (ih (fun q hq => hcs q (by simp [hq])) fuel ?_)
      simp only [List.flatten_cons, List.length_append, hc] at hf
      omega

set_option maxRecDepth 4000 in
theorem land240_eq (m : Nat) (h : m < 256) : m &&& 240 = 16 * (m / 16) := by
  revert h
  revert m
  decide

/-- Trailing zero padding does not affect the strip. -/
theorem strip_append_zeros (x : List Nat) (k : Nat) :
    stripTrailingNULs (x ++ List.replicate k 0) = stripTrailingNULs x := by
  simp only [stripTrailingNULs, List.reverse_append, List.reverse_replicate]
  induction k with
  | zero => simp
  | succ k ih =>
    rw [List.replicate_succ, List.cons_append,
      List.dropWhile_cons_of_pos (by simp)]
    exact ih

/-- A list ending in a nonzero byte is untouched by the strip. -/
theorem strip_eq_self (x : List Nat) (b : Nat) (hb : x.getLast? = some b)
    (hnz : b ≠ 0) : stripTrailingNULs x = x := by
  have hx : x ≠ [] := by intro h; simp [h] at hb
  obtain ⟨y, c, rfl⟩ : ∃ y c, x = y ++ [c] :=
    ⟨x.dropLast, x.getLast hx, (List.dropLast_append_getLast hx).symm⟩
  have hc : c = b := by simpa using hb
  subst hc
  simp [stripTrailingNULs, List.dropWhile_cons, hnz]

/-- The chunk count of the encode chain equals the plaintext chunk count. -/
theorem encodeChunks_count (secret : List Nat) (ps : List (List Nat)) :
    ∀ prev, (encodeChunks secret prev ps).length = ps.length := by
  induction ps with
  | nil => intro prev; rfl
  | cons q ps ih => intro prev; simp [encodeChunks, ih]

/-- The flattened length of a list of 16-byte chunks. -/
theorem flatten_length_16 (cs : List (List Nat))
    (hcs : ∀ c ∈ cs, c.length = 16) : cs.flatten.length = 16 * cs.length := by
  induction cs with
  | nil => simp
  | cons c cs ih =>
    simp only [List.flatten_cons, List.length_append, List.length_cons,
      hcs c (by simp), ih (fun q hq => hcs q (by simp [hq]))]
    ring

/-- `decodeMD5` inverts `encodeMD5`, with the padded length abstracted. -/
theorem decode_encode_general (p secret auth : List Nat) (n : Nat)
    (hmask : (p.length + 15) &&& 240 = n) (hlen_le : p.length ≤ n)
    (hdvd : 16 ∣ n) (hn128 : n ≤ 128) :
    decodeMD5 (encodeMD5 p secret auth) secret auth
      = .ok (stripTrailingNULs p) := by
  have henc : encodeMD5 p secret auth
      = (encodeChunks secret auth
          (chunks16 (p ++ List.replicate (n - p.length) 0))).flatten := by
    rw [encodeMD5]
    simp only [hmask]
    rw [List.take_of_length_le hlen_le]
  have hpadlen : (p ++ List.replicate (n - p.length) 0).length = n := by
    simp only [List.length_append, List.length_replicate]
    omega
  have hchunklens : ∀ c ∈ chunks16 (p ++ List.replicate (n - p.length) 0),
      c.length = 16 := by
    intro c hc
    exact chunks16Aux_mem_length _ _ le_rfl (by rw [hpadlen]; exact hdvd) c hc
  have hcipherchunks :
      ∀ c ∈ encodeChunks secret auth (chunks16 (p ++ List.replicate (n - p.length) 0)),
        c.length = 16 := encodeChunks_lengths secret _ hchunklens auth
  have hciplen :
      (encodeChunks secret auth
        (chunks16 (p ++ List.replicate (n - p.length) 0))).flatten.length = n := by
    rw [flatten_length_16 _ hcipherchunks, encodeChunks_count]
    have h1 := flatten_length_16 _ hchunklens
    rw [chunks16_flatten, hpadlen] at h1
    omega
  rw [henc, decodeMD5, if_neg]
  · rw [chunks16_flatten_inv _ hcipherchunks,
      decodeChunks_encodeChunks secret _ hchunklens auth,
      chunks16_flatten, strip_append_zeros]
  · rw [hciplen]
    push_neg
    refine ⟨?_, hn128⟩
    rcases hdvd with ⟨k, hk⟩
    omega

/-- `decodeMD5` inverts `encodeMD5` up to the trailing-NUL strip
(`lib/attribute.js:202,218`): for any plaintext of length at most 128, the
decode of the encode is the plaintext with its trailing zero bytes
removed. -/
theorem decodeMD5_encodeMD5 (p secret auth : List Nat) (h2 : p.length ≤ 128) :
    decodeMD5 (encodeMD5 p secret auth) secret auth
      = .ok (stripTrailingNULs p) := by
  have hm : p.length + 15 < 256 := by omega
  have hn : (p.length + 15) &&& 240 = 16 * ((p.length + 15) / 16) :=
    land240_eq _ hm
  have hdm := Nat.div_add_mod (p.length + 15) 16
  have hml : (p.length + 15) % 16 < 16 := Nat.mod_lt _ (by norm_num)
  have h8 : (p.length + 15) / 16 ≤ 8 := by
    calc (p.length + 15) / 16 ≤ 143 / 16 := Nat.div_le_div_right (by omega)
      _ = 8 := by norm_num
  exact decode_encode_general p secret auth _ hn (by omega)
    ⟨(p.length + 15) / 16, rfl⟩ (by omega)

/-! ## Claim C4 — the User-Password round-trip -/

/-- C4 (amended): for every plaintext `p` with `1 ≤ |p| ≤ 128` **whose
last byte is nonzero**, every secret and every authenticator,
`decodeMD5(encodeMD5(p, secret, auth), secret, auth) = p`.  (The original
claim, quantified over all such `p`, fails when `p` ends in a zero byte,
because `decodeMD5` strips trailing zero bytes — see the
counterexample.) -/
theorem C4_roundtrip_amended (p secret auth : List Nat) (h1 : 1 ≤ p.length)
    (h2 : p.length ≤ 128) (b : Nat) (hb : p.getLast? = some b) (hnz : b ≠ 0) :
    decodeMD5 (encodeMD5 p secret auth) secret auth = .ok p := by
  rw [decodeMD5_encodeMD5 p secret auth h2, strip_eq_self p b hb hnz]

/-- C4 counterexample: the plaintext `[97, 0]` (length 2, within 1..128)
does **not** round-trip — `decodeMD5` returns `[97]`, the trailing zero
byte having been stripped. -/
theorem C4_counterexample :
    decodeMD5 (encodeMD5 [97, 0] [115] (List.replicate 16 0)) [115]
        (List.replicate 16 0) ≠ .ok [97, 0] := by
  rw [decodeMD5_encodeMD5 [97, 0] [115] (List.replicate 16 0) (by norm_num)]
  decide

/-- C4 witness: the round-trip at `p = "mypass"`, `secret = "sec"`,
`auth = 16 zero bytes`. -/
theorem C4_witness :
    decodeMD5 (encodeMD5 [109, 121, 112, 97, 115, 115] [115, 101, 99]
        (List.replicate 16 0)) [115, 101, 99] (List.replicate 16 0)
      = .ok [109, 121, 112, 97, 115, 115] :=
  C4_roundtrip_amended [109, 121, 112, 97, 115, 115] [115, 101, 99]
    (List.replicate 16 0) (by decide) (by decide) 115 (by decide) (by decide)

/-! ## Claim C3 — termination of the attribute parse loop -/

/-- The parse loop of `parseAttributes` makes no progress when one or two
bytes remain past the scan position: the loop guard `n < len` holds, the
body guard `len - n > 2` fails, and `n` is not advanced. -/
theorem parseAttributesAux_stuck (st st' : DictState)
    (buf secret auth : List Nat) (acc : List Attribute) (n : Nat)
    (h1 : n < buf.length) (h2 : buf.length - n ≤ 2) :
    ∀ fuel, parseAttributesAux st buf secret auth fuel n acc st' = none := by
  intro fuel
  induction fuel with
  | zero => rfl
  | succ fuel ih =>
    rw [parseAttributesAux, if_pos h1, if_neg (by omega)]
    exact ih

/-- C3: the claim states that `AttributeList.fromWire` always terminates,
silently discarding an ill-framed tail of fewer than 2 remaining bytes.
In fact the `while (n < len)` loop of `parseAttributes` skips its body
without advancing `n` whenever 1 or 2 bytes remain (`len - n > 2` fails),
so the source loops forever on such tails: for **every** fuel bound the
fuel-indexed loop fails to produce a result. -/
theorem C3_fromWire_diverges (st : DictState) (buf secret auth : List Nat)
    (offset : Nat) (h1 : offset < buf.length)
    (h2 : buf.length - offset ≤ 2) (fuel : Nat) :
    AttributeList.fromWire st buf offset secret auth fuel = none := by
  rw [AttributeList.fromWire, parseAttributes,
    parseAttributesAux_stuck st st buf secret auth [] offset h1 h2 fuel]

/-- C3 witness: a 21-byte buffer (a RADIUS packet with one trailing junk
byte) parsed from offset 20 diverges at fuel 1000. -/
theorem C3_witness :
    AttributeList.fromWire {} (List.replicate 21 7) 20 [] [] 1000 = none :=
  C3_fromWire_diverges {} (List.replicate 21 7) [] [] 20 (by decide)
    (by decide) 1000

/-! ## Claim C5 — the packet constructor does not copy the authenticator -/

/-- C5: the claim states the authenticator is copied on set, so mutating
the caller's buffer after construction must not change what the accessor
returns.  In fact `parseAuthenticator` stores the caller's `Buffer`
reference, and the accessor's `authenticator.slice(0)` is a Node `Buffer`
view sharing the same memory: constructing a packet over a 16-zero-byte
buffer, then setting its first byte to 1, changes the accessor's bytes
from all-zero to `1, 0, ...`. -/
theorem C5_authenticator_not_copied :
    parseAuthenticatorRef [List.replicate 16 0] 0 = .ok 0 ∧
    authenticatorAccessor (heapWriteByte [List.replicate 16 0] 0 0 1) 0
        = 1 :: List.replicate 15 0 ∧
    authenticatorAccessor (heapWriteByte [List.replicate 16 0] 0 0 1) 0
        ≠ authenticatorAccessor [List.replicate 16 0] 0 := by
  refine ⟨by decide, by decide, by decide⟩

/-! ## Claim C6 — `Ipv4.fromValue` acceptance -/

/-- C6 counterexample: `"1..2.3"` contains an empty segment, which the
claim says must fail; in fact JS `Number('')` is `0`, the string has
exactly four segments, and `fromValue` succeeds with the address
`1.0.2.3`. -/
theorem C6_counterexample :
    AInet4.fromValue "1..2.3" = .ok (.bytes [1, 0, 2, 3]) := by decide

/-- C6 (amended): on strings whose dot-segments are decimal (each segment
empty or all digits — the fragment on which `Number` is modelled),
`fromValue` succeeds exactly when trimming and splitting on `.` yields
exactly four segments each converting to a number at most 255, **where an
empty segment converts to 0 and is accepted** (the original claim wrongly
said empty segments fail); wrong arity, out-of-range values and
non-numeric (NaN) segments fail. -/
theorem C6_fromValue_amended (s : String)
    (hfrag : ∀ t ∈ jsSplit (jsTrim s) '.', t.data = [] ∨ t.data.all Char.isDigit) :
    (∃ v, AInet4.fromValue s = .ok v) ↔
      (jsSplit (jsTrim s) '.').length = 4 ∧
        ∀ t ∈ jsSplit (jsTrim s) '.', ((jsNumber t).getD 256) ≤ 255 := by
  constructor
  · rintro ⟨v, hv⟩
    rw [AInet4.fromValue] at hv
    by_cases hc : ((jsSplit (jsTrim s) '.').map jsNumber).length = 4 ∧
        ((jsSplit (jsTrim s) '.').map jsNumber).all (fun x => (x.getD 256) ≤ 255)
    · refine ⟨by simpa using hc.1, ?_⟩
      intro t ht
      have := (List.all_eq_true.mp hc.2) (jsNumber t) (List.mem_map_of_mem _ ht)
      simpa using this
    · rw [if_neg hc] at hv
      exact absurd hv (by simp)
  · rintro ⟨hlen, hseg⟩
    refine ⟨.bytes (((jsSplit (jsTrim s) '.').map jsNumber).map (fun x => x.getD 0)), ?_⟩
    rw [AInet4.fromValue, if_pos ?_]
    refine ⟨by simpa using hlen, ?_⟩
    rw [List.all_eq_true]
    intro x hx
    obtain ⟨t, ht, rfl⟩ := List.mem_map.mp hx
    simpa using hseg t ht

/-- C6 witness: `"10.0.0.1"` is accepted. -/
theorem C6_witness : ∃ v, AInet4.fromValue "10.0.0.1" = .ok v :=
  (C6_fromValue_amended "10.0.0.1" (by decide)).mpr (by decide)

/-! ## Claim C2 — Status-Server handling -/

/-- C2: the claim states an auth-socket Status-Server request (code 12)
receives an immediate Access-Accept.  In fact the `Code` static property
table holds `STATUS_SERVER` (from `'Status-Server'.toUpperCase().replace('-','_')`),
while `defaultResponse` compares against `Code.SERVER_STATUS` — a property
that does not exist, so the comparison is against `undefined` and never
matches: no default response is synthesized, and `getResponse` drops the
request without any response, regardless of the registered handlers. -/
theorem C2_status_server_dropped :
    Code.staticGet "STATUS_SERVER" = some 12 ∧
    Code.staticGet "SERVER_STATUS" = none ∧
    ∀ (st : DictState) (req : RadiusPacket) (handlers : List Handler),
      req.code = 12 → getResponse st .auth req handlers = .ok none := by
  refine ⟨by decide, by decide, ?_⟩
  intro st req handlers hreq
  have h1 : Code.staticGet "ACCESS_REQUEST" = some 1 := by decide
  have h2 : Code.staticGet "SERVER_STATUS" = none := by decide
  rw [getResponse, defaultResponse]
  rw [hreq, h1, h2]
  simp only [Option.some.injEq, OfNat.ofNat_ne_one, if_false, reduceCtorEq,
    if_neg (by decide : ¬(12 : Nat) = 1)]
  rfl

/-- C2 witness: a concrete Status-Server request on the auth socket with
an empty handler chain yields no response. -/
theorem C2_witness :
    getResponse {} .auth
      { code := 12, identifier := 0, authenticator := List.replicate 16 0,
        attributes := { attrs := [], readonly := true } } [] = .ok none :=
  (C2_status_server_dropped.2.2) {} _ [] rfl

/-! ## Claim C10 — `RadiusServer#use` argument rejection -/

/-- C10: for every object argument whose `auth` or `acct` property exists
but is not a function, `use` neither throws nor registers anything: it
**returns** a `TypeError` value and leaves the handler chain exactly as
it was. -/
theorem C10_use_returns_typeerror (handlers : List HandlerArg)
    (h : HandlerArg) (hbad : h.auth = some .nonfn ∨ h.acct = some .nonfn) :
    ∃ msg, RadiusServer.use handlers (.obj h) = (.typeErrorVal msg, handlers) := by
  rw [RadiusServer.use]
  by_cases ha : h.auth = some .nonfn
  · exact ⟨_, by rw [if_pos ha]⟩
  · have hc : h.acct = some .nonfn := by tauto
    exact ⟨_, by rw [if_neg ha, if_pos hc]⟩

/-- C10 witness: an object with a non-function `auth` property leaves an
empty chain empty and returns a `TypeError`. -/
theorem C10_witness :
    ∃ msg, RadiusServer.use [] (.obj { auth := some .nonfn }) =
      (.typeErrorVal msg, []) :=
  C10_use_returns_typeerror [] { auth := some .nonfn } (Or.inl rfl)

/-! ## Claim C8 — the client retry loop -/

/-- Invariant of the `send()` recursion: starting at `attempt` with
`remaining` attempts allowed, at most `remaining` datagrams are sent, the
`i`-th datagram goes to server `(attempt + i) % slen`, and if every
window passes unanswered the run sends exactly `remaining` datagrams and
ends in the timeout rejection. -/
theorem sendSteps_spec (slen : Nat) (accepted : Nat → Bool) :
    ∀ remaining attempt,
      (sendSteps slen accepted attempt remaining).1.length ≤ remaining ∧
      (∀ i, i < (sendSteps slen accepted attempt remaining).1.length →
        (sendSteps slen accepted attempt remaining).1.getD i 0
          = (attempt + i) % slen) ∧
      ((∀ j, j < remaining → accepted (attempt + j) = false) → 1 ≤ remaining →
        (sendSteps slen accepted attempt remaining).2 = true ∧
        (sendSteps slen accepted attempt remaining).1.length = remaining) := by
  intro remaining
  induction remaining with
  | zero =>
    intro attempt
    exact ⟨by simp [sendSteps], by simp [sendSteps], fun _ h => absurd h (by omega)⟩
  | succ n ih =>
    intro attempt
    have hone : ∀ (b : Bool), accepted attempt = b →
        sendSteps slen accepted attempt 1
          = ([attempt % slen], !b) := by
      intro b hb
      cases b <;> simp [sendSteps, hb]
    cases n with
    | zero =>
      cases hacc : accepted attempt with
      | true =>
        have hrun := hone true hacc
        refine ⟨by rw [hrun]; simp, ?_, ?_⟩
        · intro i hi
          rw [hrun] at hi ⊢
          have hi0 : i = 0 := by simpa using Nat.lt_one_iff.mp (by simpa using hi)
          simp [hi0]
        · intro hall _
          exact absurd (hall 0 (by omega)) (by simp [hacc])
      | false =>
        have hrun := hone false hacc
        refine ⟨by rw [hrun]; simp, ?_, ?_⟩
        · intro i hi
          rw [hrun] at hi ⊢
          have hi0 : i = 0 := by simpa using Nat.lt_one_iff.mp (by simpa using hi)
          simp [hi0]
        · intro _ _
          rw [hrun]
          exact ⟨rfl, rfl⟩
    | succ m =>
      cases hacc : accepted attempt with
      | true =>
        have hrun : sendSteps slen accepted attempt (m + 2)
            = ([attempt % slen], false) := by
          simp [sendSteps, hacc]
        refine ⟨by rw [hrun]; simp, ?_, ?_⟩
        · intro i hi
          rw [hrun] at hi ⊢
          have hi0 : i = 0 := by simpa using Nat.lt_one_iff.mp (by simpa using hi)
          simp [hi0]
        · intro hall _
          exact absurd (hall 0 (by omega)) (by simp [hacc])
      | false =>
        rcases hst : sendSteps slen accepted (attempt + 1) (m + 1) with ⟨s, t⟩
        have ihx := ih (attempt + 1)
        rw [hst] at ihx
        have ihlen : s.length ≤ m + 1 := ihx.1
        have ihsel : ∀ i, i < s.length → s.getD i 0 = (attempt + 1 + i) % slen :=
          ihx.2.1
        have ihto : (∀ j, j < m + 1 → accepted (attempt + 1 + j) = false) →
            1 ≤ m + 1 → t = true ∧ s.length = m + 1 := ihx.2.2
        have hrun : sendSteps slen accepted attempt (m + 2)
            = (attempt % slen :: s, t) := by
          simp [sendSteps, hacc, hst]
        refine ⟨?_, ?_, ?_⟩
        · rw [hrun]
          simp only [List.length_cons]
          omega
        · intro i hi
          rw [hrun] at hi ⊢
          cases i with
          | zero => simp
          | succ i' =>
            simp only [List.length_cons] at hi
            have := ihsel i' (by omega)
            simp only [List.getD_cons_succ]
            rw [this]
            ring_nf
        · intro hall _
          have hall2 : ∀ j, j < m + 1 → accepted (attempt + 1 + j) = false := by
            intro j hj
            have := hall (j + 1) (by omega)
            rw [← this]
            ring_nf
          obtain ⟨ht, hl⟩ := ihto hall2 (by omega)
          rw [hrun]
          refine ⟨ht, ?_⟩
          simp only [List.length_cons]
          omega

/-- C8: with `k ≥ 1` servers and `retry = r ≥ 1`, a request run sends at
most `r * k` datagrams, the datagram of attempt `i` goes to server
`i % k` (strict round-robin), and if no window is answered acceptably the
run sends exactly `r * k` datagrams and rejects with the timeout error. -/
theorem C8_retry_round_robin (k r : Nat) (accepted : Nat → Bool)
    (hk : 1 ≤ k) (hr : 1 ≤ r) :
    (clientRun k r accepted).1.length ≤ r * k ∧
    (∀ i, i < (clientRun k r accepted).1.length →
      (clientRun k r accepted).1.getD i 0 = i % k) ∧
    ((∀ j, j < r * k → accepted j = false) →
      (clientRun k r accepted).2 = true ∧
      (clientRun k r accepted).1.length = r * k) := by
  have h := sendSteps_spec k accepted (r * k) 0
  obtain ⟨h1, h2, h3⟩ := h
  refine ⟨h1, ?_, ?_⟩
  · intro i hi
    simpa using h2 i hi
  · intro hall
    refine h3 (by simpa using hall) ?_
    have : 1 * 1 ≤ r * k := Nat.mul_le_mul hr hk
    omega

/-- C8 witness: two servers, three retries, nothing answered — six
datagrams in round-robin order `0,1,0,1,0,1` and a timeout. -/
theorem C8_witness :
    (clientRun 2 3 (fun _ => false)).1.length ≤ 3 * 2 ∧
    (∀ i, i < (clientRun 2 3 (fun _ => false)).1.length →
      (clientRun 2 3 (fun _ => false)).1.getD i 0 = i % 2) ∧
    ((∀ j, j < 3 * 2 → (fun _ => false) j = false) →
      (clientRun 2 3 (fun _ => false)).2 = true ∧
      (clientRun 2 3 (fun _ => false)).1.length = 3 * 2) :=
  C8_retry_round_robin 2 3 (fun _ => false) (by decide) (by decide)

/-! ## Claim C7 — dictionary lookups are idempotent -/

theorem mapGet_mapSet_self {κ α : Type} [DecidableEq κ]
    (l : List (κ × α)) (k : κ) (v : α) :
    mapGet (mapSet l k v) k = some v := by
  induction l with
  | nil => simp [mapSet, mapGet]
  | cons p l ih =>
    by_cases hp : p.1 = k
    · simp [mapSet, mapGet, hp]
    · simp only [mapSet, if_neg hp]
      simpa [mapGet, List.find?_cons, hp] using ih

theorem mapGet_mapSet_ne {κ α : Type} [DecidableEq κ]
    (l : List (κ × α)) (k k2 : κ) (v : α) (hne : k2 ≠ k) :
    mapGet (mapSet l k v) k2 = mapGet l k2 := by
  induction l with
  | nil => simp [mapSet, mapGet, Ne.symm hne]
  | cons p l ih =>
    by_cases hp : p.1 = k
    · have hpk : ¬ (k = k2) := fun h => hne h.symm
      simp [mapSet, mapGet, hp, List.find?_cons, hpk,
        show ¬ (p.1 = k2) from hp ▸ hpk]
    · by_cases hp2 : p.1 = k2
      · simp [mapSet, mapGet, if_neg hp, List.find?_cons, hp2, hne]
      · simp only [mapSet, if_neg hp]
        have h1 : mapGet (p :: mapSet l k v) k2 = mapGet (mapSet l k v) k2 := by
          simp [mapGet, List.find?_cons, hp2]
        have h2 : mapGet (p :: l) k2 = mapGet l k2 := by
          simp [mapGet, List.find?_cons, hp2]
        rw [h1, h2, ih]

theorem mapHas_eq_isSome {κ α : Type} [DecidableEq κ]
    (l : List (κ × α)) (k : κ) :
    mapHas l k = (mapGet l k).isSome := by
  induction l with
  | nil => simp [mapHas, mapGet]
  | cons p l ih =>
    by_cases hp : p.1 = k
    · simp [mapHas, mapGet, List.find?_cons, hp]
    · simpa [mapHas, mapGet, List.find?_cons, hp] using ih

theorem mapHas_of_get {κ α : Type} [DecidableEq κ]
    (l : List (κ × α)) (k : κ) (v : α) (h : mapGet l k = some v) :
    mapHas l k = true := by
  rw [mapHas_eq_isSome, h]
  rfl

/-- After a successful `Dictionary.vendor`, the returned vendor is the one
stored under the numeric key. -/
theorem vendor_post (st : DictState) (id : Nat) (v : Vendor) (st₁ : DictState)
    (h : Dictionary.vendor st id = .ok (v, st₁)) :
    mapGet st₁.vendors (.num id) = some v := by
  by_cases hhas : mapHas st.vendors (.num id)
  · rw [Dictionary.vendor] at h
    simp only [hhas, if_true, bind, Except.bind, pure, Except.pure] at h
    cases hmg : mapGet st.vendors (.num id) with
    | none => rw [hmg] at h; exact absurd h (by simp)
    | some v0 =>
      rw [hmg] at h
      simp only [Except.ok.injEq, Prod.mk.injEq] at h
      obtain ⟨rfl, rfl⟩ := h
      exact hmg
  · rw [Dictionary.vendor, Dictionary.addVendor] at h
    simp only [hhas, if_false, Bool.false_eq_true, bind, Except.bind, pure,
      Except.pure] at h
    by_cases hid : id < 2 ^ 32
    · rw [Dictionary.mkVendor, if_pos hid] at h
      simp only [bind, Except.bind, pure, Except.pure] at h
      have hmg : mapGet (mapSet (mapSet st.vendors (DKey.num id)
            { name := s!"Vendor{id}", id := id })
          (DKey.str (jsToLower s!"Vendor{id}"))
            { name := s!"Vendor{id}", id := id }) (DKey.num id)
          = some { name := s!"Vendor{id}", id := id } := by
        rw [mapGet_mapSet_ne _ _ _ _ (by intro hc; cases hc),
          mapGet_mapSet_self]
      rw [hmg] at h
      simp only [Except.ok.injEq, Prod.mk.injEq] at h
      obtain ⟨rfl, rfl⟩ := h
      exact hmg
    · rw [Dictionary.mkVendor, if_neg hid] at h
      exact absurd h (by simp)

/-- A vendor already stored under its numeric key is returned without any
state change. -/
theorem vendor_of_present (st : DictState) (id : Nat) (v : Vendor)
    (h : mapGet st.vendors (.num id) = some v) :
    Dictionary.vendor st id = .ok (v, st) := by
  rw [Dictionary.vendor]
  simp only [mapHas_of_get _ _ _ h, if_true, bind, Except.bind, pure,
    Except.pure, h]

/-- The entry synthesized by `Dictionary.get` for an unknown numeric id. -/
def unknownEntry (id : Nat) : DictionaryEntry :=
  { name := s!"Unknown-Attribute-{id}", id := id, type := AVType.octets }

/-- The state after synthesizing `Unknown-Attribute-<id>`. -/
def unknownState (st : DictState) (id : Nat) : DictState :=
  { st with dict := (mapSet (mapSet st.dict (.num id) (unknownEntry id))
      (.str (jsToLower s!"Unknown-Attribute-{id}")) (unknownEntry id)) }

/-- A dictionary entry stored under an in-range numeric key is returned
without any state change. -/
theorem get_num_of_present (st : DictState) (id : Nat) (e : DictionaryEntry)
    (hrange : ¬(id < 1 ∨ 255 < id)) (h : mapGet st.dict (.num id) = some e) :
    Dictionary.get st (.num id) = .ok (e, st) := by
  rw [Dictionary.get]
  simp only [hrange, if_false, mapHas_of_get _ _ _ h, if_true, bind,
    Except.bind, pure, Except.pure, h]

/-- `Dictionary.get` idempotence. -/
theorem get_idem (st : DictState) (k : DKey) (e : DictionaryEntry)
    (st₁ : DictState) (h : Dictionary.get st k = .ok (e, st₁)) :
    Dictionary.get st₁ k = .ok (e, st₁) := by
  cases k with
  | str s =>
    rw [Dictionary.get] at h ⊢
    cases hmg : mapGet st.dict (.str (jsToLower s)) with
    | none => rw [hmg] at h; exact absurd h (by simp)
    | some e0 =>
      rw [hmg] at h
      simp only [pure, Except.pure, Except.ok.injEq, Prod.mk.injEq] at h
      obtain ⟨rfl, rfl⟩ := h
      simp only [hmg, pure, Except.pure]
  | num id =>
    by_cases hrange : id < 1 ∨ 255 < id
    · rw [Dictionary.get] at h
      simp only [hrange, if_true] at h
      exact absurd h (by simp)
    · rw [Dictionary.get] at h
      simp only [hrange, if_false, bind, Except.bind, pure, Except.pure,
        Bool.false_eq_true] at h
      by_cases hhas : mapHas st.dict (.num id)
      · simp only [hhas, if_true] at h
        cases hmg : mapGet st.dict (.num id) with
        | none => rw [hmg] at h; exact absurd h (by simp)
        | some e0 =>
          rw [hmg] at h
          simp only [Except.ok.injEq, Prod.mk.injEq] at h
          obtain ⟨rfl, rfl⟩ := h
          exact get_num_of_present _ _ _ hrange hmg
      · simp only [hhas, if_false, Bool.false_eq_true] at h
        have haas : Dictionary.addAttributeSpec st none
            s!"Unknown-Attribute-{id}" id "octets" none
            = .ok (unknownState st id) := rfl
        rw [haas] at h
        have hmg : mapGet (unknownState st id).dict (.num id)
            = some (unknownEntry id) := by
          rw [unknownState]
          exact (mapGet_mapSet_ne _ _ _ _ (by intro hc; cases hc)).trans
            (mapGet_mapSet_self _ _ _)
        simp only [hmg] at h
        simp only [Except.ok.injEq, Prod.mk.injEq] at h
        obtain ⟨rfl, rfl⟩ := h
        exact get_num_of_present _ _ _ hrange hmg

/-- `Dictionary.vendor` idempotence. -/
theorem vendor_idem (st : DictState) (id : Nat) (v : Vendor) (st₁ : DictState)
    (h : Dictionary.vendor st id = .ok (v, st₁)) :
    Dictionary.vendor st₁ id = .ok (v, st₁) :=
  vendor_of_present st₁ id v (vendor_post st id v st₁ h)

/-- The entry synthesized by `Dictionary.vsa` for an unknown sub-id. -/
def vsaEntry (v : Vendor) (nm : String) (sid : Nat) : DictionaryEntry :=
  { name := nm, id := 26, sub_id := some sid, vendor := some v,
    type := AVType.vsa, sub_type := some AVType.octets, flags := [] }

/-- The state after `Dictionary.vsa` synthesizes an unknown sub-id entry
(the vendor's VSA table being present). -/
def vsaAddState (st : DictState) (v : Vendor) (nm : String) (sid : Nat) :
    DictState :=
  { st with
    vsas := (mapSet st.vsas v.id
      (mapSet ((mapGet st.vsas v.id).getD []) sid (vsaEntry v nm sid)))
    dict := (mapSet st.dict (.str (jsToLower nm)) (vsaEntry v nm sid)) }

/-- A VSA entry reachable through stored vendor and table entries is
returned without any state change. -/
theorem vsa_of_present (st : DictState) (vid sid : Nat) (v : Vendor)
    (inner : List (Nat × DictionaryEntry)) (e : DictionaryEntry)
    (hvend : mapGet st.vendors (.num vid) = some v)
    (hvsas : mapGet st.vsas v.id = some inner)
    (hfin : mapGet inner sid = some e) :
    Dictionary.vsa st vid sid = .ok (e, st) := by
  rw [Dictionary.vsa]
  have hv1 : Dictionary.vendor st vid = .ok (v, st) :=
    vendor_of_present _ _ _ hvend
  simp only [hv1, bind, Except.bind, hvsas, mapHas_of_get _ _ _ hfin,
    if_true, pure, Except.pure, Option.getD_some, hfin]

/-- `Dictionary.vsa` idempotence. -/
theorem vsa_idem (st : DictState) (vid sid : Nat) (e : DictionaryEntry)
    (st₁ : DictState) (h : Dictionary.vsa st vid sid = .ok (e, st₁)) :
    Dictionary.vsa st₁ vid sid = .ok (e, st₁) := by
  rw [Dictionary.vsa] at h
  cases hv : Dictionary.vendor st vid with
  | error err => rw [hv] at h; exact absurd h (by simp [bind, Except.bind])
  | ok pr =>
    obtain ⟨v, st2⟩ := pr
    rw [hv] at h
    simp only [bind, Except.bind] at h
    cases hinner : mapGet st2.vsas v.id with
    | none => rw [hinner] at h; exact absurd h (by simp)
    | some inner =>
      rw [hinner] at h
      have hv1post := vendor_post st vid v st2 hv
      by_cases hhas : mapHas inner sid
      · simp only [hhas, if_true, pure, Except.pure, hinner,
          Option.getD_some] at h
        cases hfin : mapGet inner sid with
        | none => rw [hfin] at h; exact absurd h (by simp)
        | some e0 =>
          rw [hfin] at h
          simp only [Except.ok.injEq, Prod.mk.injEq] at h
          obtain ⟨rfl, rfl⟩ := h
          exact vsa_of_present st2 vid sid v inner e0 hv1post hinner hfin
      · simp only [hhas, if_false, Bool.false_eq_true, bind, Except.bind] at h
        have hhasV : mapHas st2.vsas v.id = true := mapHas_of_get _ _ _ hinner
        have hmk : mkEntry (some v) (s!"{v.name}-Unknown-Attribute-{sid}")
            sid "octets" none
            = .ok (vsaEntry v (s!"{v.name}-Unknown-Attribute-{sid}") sid) := rfl
        have haas : Dictionary.addAttributeSpec st2 (some v)
            (s!"{v.name}-Unknown-Attribute-{sid}") sid "octets" none
            = .ok (vsaAddState st2 v (s!"{v.name}-Unknown-Attribute-{sid}") sid) := by
          rw [Dictionary.addAttributeSpec]
          simp only [hmk, bind, Except.bind, hhasV, if_true, pure, Except.pure]
          rfl
        rw [haas] at h
        have hmg2 : mapGet (vsaAddState st2 v
              (s!"{v.name}-Unknown-Attribute-{sid}") sid).vsas v.id
            = some (mapSet inner sid
              (vsaEntry v (s!"{v.name}-Unknown-Attribute-{sid}") sid)) := by
          have hfield : (vsaAddState st2 v
                (s!"{v.name}-Unknown-Attribute-{sid}") sid).vsas
              = mapSet st2.vsas v.id
                (mapSet ((mapGet st2.vsas v.id).getD []) sid
                  (vsaEntry v (s!"{v.name}-Unknown-Attribute-{sid}") sid)) := rfl
          rw [hfield, mapGet_mapSet_self, hinner, Option.getD_some]
        split at h
        · rename_i heq
          exact absurd heq (by simp)
        · rename_i y heq
          replace heq : vsaAddState st2 v
              (s!"{v.name}-Unknown-Attribute-{sid}") sid = y :=
            Except.ok.inj heq
          subst heq
          rw [hmg2, Option.getD_some, mapGet_mapSet_self] at h
          simp only [pure, Except.pure, Except.ok.injEq, Prod.mk.injEq] at h
          obtain ⟨rfl, rfl⟩ := h
          refine vsa_of_present _ vid sid v _ _ ?_ hmg2
            (mapGet_mapSet_self inner sid _)
          have hvfield : (vsaAddState st2 v
              (s!"{v.name}-Unknown-Attribute-{sid}") sid).vendors
              = st2.vendors := rfl
          rw [hvfield]
          exact hv1post

/-- C7: dictionary lookups are referentially idempotent — for numeric ids
and names through `Dictionary.get`, for vendor ids through
`Dictionary.vendor`, and for `(vendor_id, sub_id)` pairs through
`Dictionary.vsa`, a second call with the same input on the state produced
by the first returns the very same descriptor or vendor and leaves the
state unchanged.  This covers entries, vendors and VSAs synthesized on a
first unknown lookup. -/
theorem C7_lookups_idempotent :
    (∀ (st : DictState) (k : DKey) (e : DictionaryEntry) (st₁ : DictState),
      Dictionary.get st k = .ok (e, st₁) →
        Dictionary.get st₁ k = .ok (e, st₁)) ∧
    (∀ (st : DictState) (id : Nat) (v : Vendor) (st₁ : DictState),
      Dictionary.vendor st id = .ok (v, st₁) →
        Dictionary.vendor st₁ id = .ok (v, st₁)) ∧
    (∀ (st : DictState) (vid sid : Nat) (e : DictionaryEntry) (st₁ : DictState),
      Dictionary.vsa st vid sid = .ok (e, st₁) →
        Dictionary.vsa st₁ vid sid = .ok (e, st₁)) :=
  ⟨get_idem, vendor_idem, vsa_idem⟩

/-- C7 witness: looking up the unknown numeric id 5 in the empty registry
synthesizes `Unknown-Attribute-5`; the repeated lookup returns the same
entry and the same state. -/
theorem C7_witness :
    Dictionary.get {} (.num 5) = .ok (unknownEntry 5, unknownState {} 5) ∧
    Dictionary.get (unknownState {} 5) (.num 5)
      = .ok (unknownEntry 5, unknownState {} 5) :=
  ⟨by decide,
    C7_lookups_idempotent.1 {} (.num 5) (unknownEntry 5) (unknownState {} 5)
      (by decide)⟩

/-! ## Facts about buffer writes -/

theorem writeBytes_nil (buf : List Nat) (off : Nat) :
    writeBytes buf off [] = buf := by
  simp [writeBytes]

theorem writeBytes_length (buf w : List Nat) (off : Nat)
    (h : off + w.length ≤ buf.length) :
    (writeBytes buf off w).length = buf.length := by
  simp only [writeBytes, List.length_append, List.length_take,
    List.length_drop]
  omega

/-- Two consecutive writes are one write of the concatenation. -/
theorem writeBytes_append (buf : List Nat) (off : Nat) (w1 w2 : List Nat)
    (h : off ≤ buf.length) :
    writeBytes (writeBytes buf off w1) (off + w1.length) w2
      = writeBytes buf off (w1 ++ w2) := by
  have hA : (buf.take off ++ w1).length = off + w1.length := by
    simp only [List.length_append, List.length_take]
    omega
  simp only [writeBytes, List.length_append]
  rw [List.take_left' hA]
  rw [show off + w1.length + w2.length
      = (buf.take off ++ w1).length + w2.length from by omega]
  rw [List.drop_append, List.drop_drop]
  rw [show off + w1.length + w2.length = off + (w1.length + w2.length) from by
    omega]
  simp [List.append_assoc]

/-- Writing at the end of the materialized prefix of a zero-filled
buffer. -/
theorem writeBytes_grow (w rest : List Nat) (pre : List Nat) :
    writeBytes (pre ++ rest) pre.length w
      = pre ++ w ++ rest.drop w.length := by
  rw [writeBytes, List.take_left, List.drop_append]

/-! ## The wire image of an attribute -/

/-- The attribute's encoded data: the value's buffer, run through
`encodeMD5` when the `encrypt=1` flag is set. -/
def attrData (a : Attribute) (secret auth : List Nat) : List Nat :=
  if a.dict.encrypt = some 1 then encodeMD5 a.avalue.toBuffer secret auth
  else a.avalue.toBuffer

/-- The value written into the attribute's length byte. -/
def attrWireLen (a : Attribute) (secret auth : List Nat) : Nat :=
  2 + (attrData a secret auth).length +
    (match a.dict.vendor with
     | some v => 4 + v.typeSize + v.lengthSize
     | none => 0)

/-- The bytes `Attribute#toWire` emits. -/
def attrWireBytes (a : Attribute) (secret auth : List Nat) : List Nat :=
  a.dict.id :: attrWireLen a secret auth ::
    ((match a.dict.vendor with
      | none => []
      | some v =>
        bytesBE 4 v.id ++ bytesBE v.typeSize (a.dict.sub_id.getD 0) ++
          (if v.lengthSize ≠ 0 then
            bytesBE v.lengthSize (min (attrData a secret auth).length 255)
          else []))
      ++ attrData a secret auth)

theorem attrWireBytes_length (a : Attribute) (secret auth : List Nat) :
    (attrWireBytes a secret auth).length = attrWireLen a secret auth := by
  rw [attrWireBytes, attrWireLen]
  cases hv : a.dict.vendor with
  | none => simp; omega
  | some v =>
    by_cases hls : v.lengthSize ≠ 0
    · simp [hls, bytesBE_length]
      omega
    · simp only [ne_eq, Decidable.not_not] at hls
      simp [hls, bytesBE_length]
      omega

/-- Encode-side well-formedness: every value `Attribute#toWire` writes is
accepted by the Node `Buffer` writers. -/
def encodeWFb (a : Attribute) (secret auth : List Nat) : Bool :=
  decide (a.dict.id ≤ 255) &&
  decide (attrWireLen a secret auth ≤ 255) &&
  (match a.dict.vendor with
   | none => true
   | some v =>
     a.dict.sub_id.isSome &&
     decide (a.dict.sub_id.getD 0 < 256 ^ v.typeSize) &&
     decide (1 ≤ v.typeSize) && decide (v.typeSize ≤ 6) &&
     decide (v.lengthSize ≤ 6) && decide (v.id < 2 ^ 32))

theorem attrData_eq (a : Attribute) (secret auth : List Nat) :
    (if a.dict.encrypt = some 1 then encodeMD5 a.avalue.toBuffer secret auth
     else a.avalue.toBuffer) = attrData a secret auth := rfl

/-- `Attribute#toWire` writes exactly `attrWireBytes` and advances the
offset by `attrWireLen`, for any attribute whose values pass the `Buffer`
writers' range checks and that fits in the remaining room. -/
theorem attr_toWire_ok (a : Attribute) (buf : List Nat) (offset : Nat)
    (secret auth : List Nat) (hwf : encodeWFb a secret auth = true)
    (hfit : offset + attrWireLen a secret auth < buf.length) :
    Attribute.toWire a buf offset secret auth
      = .ok (writeBytes buf offset (attrWireBytes a secret auth),
             offset + attrWireLen a secret auth) := by
  rw [encodeWFb, Bool.and_eq_true, Bool.and_eq_true] at hwf
  obtain ⟨⟨hid, hlen⟩, hvcond⟩ := hwf
  rw [decide_eq_true_eq] at hid hlen
  cases hvend : a.dict.vendor with
  | none =>
    have hL : attrWireLen a secret auth = 2 + (attrData a secret auth).length := by
      rw [attrWireLen, hvend]
      rfl
    have hbytes : attrWireBytes a secret auth
        = [a.dict.id, attrWireLen a secret auth] ++ attrData a secret auth := by
      rw [attrWireBytes, hvend]
      simp
    rw [Attribute.toWire]
    simp only [hvend]
    rw [if_neg (by rw [attrData_eq]; omega)]
    have hw1 : writeUInt8 buf a.dict.id offset
        = .ok (writeBytes buf offset [a.dict.id], offset + 1) := by
      rw [writeUInt8, if_pos ⟨hid, by omega⟩]
    have hlen1 : (writeBytes buf offset [a.dict.id]).length = buf.length :=
      writeBytes_length _ _ _ (by simp; omega)
    have hw2 : writeUInt8 (writeBytes buf offset [a.dict.id])
          (2 + (attrData a secret auth).length) (offset + 1)
        = .ok (writeBytes buf offset [a.dict.id, 2 + (attrData a secret auth).length],
               offset + 2) := by
      rw [writeUInt8, if_pos ⟨by omega, by rw [hlen1]; omega⟩]
      have := writeBytes_append buf offset [a.dict.id]
        [2 + (attrData a secret auth).length] (by omega)
      simp only [List.length_singleton] at this
      rw [this]
      rfl
    simp only [attrData_eq, Nat.add_zero, hw1, bind, Except.bind, hw2, pure,
      Except.pure]
    have hlen2 : (writeBytes buf offset
        [a.dict.id, 2 + (attrData a secret auth).length]).length = buf.length :=
      writeBytes_length _ _ _ (by simp; omega)
    rw [copyInto, hlen2]
    rw [List.take_of_length_le (by omega)]
    have := writeBytes_append buf offset
      [a.dict.id, 2 + (attrData a secret auth).length]
      (attrData a secret auth) (by omega)
    simp only [List.length_cons, List.length_nil, Nat.zero_add, List.length_singleton] at this
    rw [show offset + (1 + 1) = offset + 2 from by omega] at this
    rw [this, hbytes, hL]
    rw [show offset + 2 + (attrData a secret auth).length
        = offset + (2 + (attrData a secret auth).length) from by omega]
  | some v =>
    rw [hvend] at hvcond
    simp only [Bool.and_eq_true, decide_eq_true_eq,
      Option.isSome_iff_exists] at hvcond
    obtain ⟨⟨⟨⟨⟨⟨sid, hsid⟩, hsidlt⟩, hts1⟩, hts6⟩, hls6⟩, hvid⟩ := hvcond
    rw [hsid] at hsidlt
    simp only [Option.getD_some] at hsidlt
    have hL : attrWireLen a secret auth
        = 2 + (attrData a secret auth).length + (4 + v.typeSize + v.lengthSize) := by
      rw [attrWireLen, hvend]
    rw [Attribute.toWire]
    simp only [hvend, hsid]
    rw [if_neg (by rw [attrData_eq]; omega)]
    have hw1 : writeUInt8 buf a.dict.id offset
        = .ok (writeBytes buf offset [a.dict.id], offset + 1) := by
      rw [writeUInt8, if_pos ⟨hid, by omega⟩]
    have hlen1 : (writeBytes buf offset [a.dict.id]).length = buf.length :=
      writeBytes_length _ _ _ (by simp; omega)
    have hw2 : writeUInt8 (writeBytes buf offset [a.dict.id])
          (2 + (attrData a secret auth).length + (4 + v.typeSize + v.lengthSize))
          (offset + 1)
        = .ok (writeBytes buf offset
              [a.dict.id, 2 + (attrData a secret auth).length + (4 + v.typeSize + v.lengthSize)],
            offset + 2) := by
      rw [writeUInt8, if_pos ⟨by omega, by rw [hlen1]; omega⟩]
      have := writeBytes_append buf offset [a.dict.id]
        [2 + (attrData a secret auth).length + (4 + v.typeSize + v.lengthSize)]
        (by omega)
      simp only [List.length_singleton] at this
      rw [this]
      rfl
    have hlen2 : (writeBytes buf offset
          [a.dict.id, 2 + (attrData a secret auth).length + (4 + v.typeSize + v.lengthSize)]).length
        = buf.length :=
      writeBytes_length _ _ _ (by simp; omega)
    have hw3 : writeUInt32BE (writeBytes buf offset
          [a.dict.id, 2 + (attrData a secret auth).length + (4 + v.typeSize + v.lengthSize)])
          v.id (offset + 2)
        = .ok (writeBytes buf offset
              ([a.dict.id, 2 + (attrData a secret auth).length + (4 + v.typeSize + v.lengthSize)]
                ++ bytesBE 4 v.id),
            offset + 2 + 4) := by
      rw [writeUInt32BE, if_pos ⟨by omega, by rw [hlen2]; omega⟩]
      have := writeBytes_append buf offset
        [a.dict.id, 2 + (attrData a secret auth).length + (4 + v.typeSize + v.lengthSize)]
        (bytesBE 4 v.id) (by omega)
      simp only [List.length_cons, List.length_nil, Nat.zero_add, List.length_singleton] at this
      rw [show offset + (1 + 1) = offset + 2 from by omega] at this
      rw [this]
    have hlen3 : (writeBytes buf offset
          ([a.dict.id, 2 + (attrData a secret auth).length + (4 + v.typeSize + v.lengthSize)]
            ++ bytesBE 4 v.id)).length = buf.length :=
      writeBytes_length _ _ _ (by simp [bytesBE_length]; omega)
    have hw4 : writeUIntBE (writeBytes buf offset
          ([a.dict.id, 2 + (attrData a secret auth).length + (4 + v.typeSize + v.lengthSize)]
            ++ bytesBE 4 v.id)) sid (offset + 2 + 4) v.typeSize
        = .ok (writeBytes buf offset
              ([a.dict.id, 2 + (attrData a secret auth).length + (4 + v.typeSize + v.lengthSize)]
                ++ bytesBE 4 v.id ++ bytesBE v.typeSize sid),
            offset + 2 + 4 + v.typeSize) := by
      rw [writeUIntBE, if_pos ⟨hts1, hts6, hsidlt, by rw [hlen3]; omega⟩]
      have := writeBytes_append buf offset
        ([a.dict.id, 2 + (attrData a secret auth).length + (4 + v.typeSize + v.lengthSize)]
          ++ bytesBE 4 v.id) (bytesBE v.typeSize sid) (by omega)
      simp only [List.length_append, List.length_cons, List.length_nil,
        Nat.zero_add, List.length_singleton, bytesBE_length] at this
      rw [show offset + (1 + 1 + 4) = offset + 2 + 4 from by omega] at this
      rw [this]
    simp only [attrData_eq, hw1, hw2, hw3, hw4, bind, Except.bind, pure,
      Except.pure]
    have hlen4 : (writeBytes buf offset
          ([a.dict.id, 2 + (attrData a secret auth).length + (4 + v.typeSize + v.lengthSize)]
            ++ bytesBE 4 v.id ++ bytesBE v.typeSize sid)).length = buf.length :=
      writeBytes_length _ _ _ (by simp [bytesBE_length]; omega)
    by_cases hls0 : v.lengthSize = 0
    · rw [if_neg (by simp [hls0])]
      rw [copyInto, hlen4]
      rw [List.take_of_length_le (by omega)]
      have hm := writeBytes_append buf offset
        ([a.dict.id, 2 + (attrData a secret auth).length + (4 + v.typeSize + v.lengthSize)]
          ++ bytesBE 4 v.id ++ bytesBE v.typeSize sid)
        (attrData a secret auth) (by omega)
      simp only [List.length_append, List.length_cons, List.length_nil,
        Nat.zero_add, List.length_singleton, bytesBE_length] at hm
      rw [show offset + (1 + 1 + 4 + v.typeSize)
          = offset + 2 + 4 + v.typeSize from by omega] at hm
      rw [hm]
      simp only [attrWireBytes, attrWireLen, hvend, hsid, Option.getD_some]
      rw [if_neg (by simp [hls0])]
      simp only [Except.ok.injEq, Prod.mk.injEq]
      refine ⟨?_, by omega⟩
      simp [List.append_assoc]
    · rw [if_pos hls0]
      have h256 : (256 : Nat) ≤ 256 ^ v.lengthSize := by
        calc (256 : Nat) = 256 ^ 1 := by norm_num
        _ ≤ 256 ^ v.lengthSize := Nat.pow_le_pow_right (by omega) (by omega)
      have hw5 : writeUIntBE (writeBytes buf offset
            ([a.dict.id, 2 + (attrData a secret auth).length + (4 + v.typeSize + v.lengthSize)]
              ++ bytesBE 4 v.id ++ bytesBE v.typeSize sid))
            (min (attrData a secret auth).length 255)
            (offset + 2 + 4 + v.typeSize) v.lengthSize
          = .ok (writeBytes buf offset
                ([a.dict.id, 2 + (attrData a secret auth).length + (4 + v.typeSize + v.lengthSize)]
                  ++ bytesBE 4 v.id ++ bytesBE v.typeSize sid
                  ++ bytesBE v.lengthSize (min (attrData a secret auth).length 255)),
              offset + 2 + 4 + v.typeSize + v.lengthSize) := by
        rw [writeUIntBE, if_pos ⟨by omega, hls6,
          by have := Nat.min_le_right (attrData a secret auth).length 255; omega,
          by rw [hlen4]; omega⟩]
        have := writeBytes_append buf offset
          ([a.dict.id, 2 + (attrData a secret auth).length + (4 + v.typeSize + v.lengthSize)]
            ++ bytesBE 4 v.id ++ bytesBE v.typeSize sid)
          (bytesBE v.lengthSize (min (attrData a secret auth).length 255)) (by omega)
        simp only [List.length_append, List.length_cons, List.length_nil,
          Nat.zero_add, List.length_singleton, bytesBE_length] at this
        rw [show offset + (1 + 1 + 4 + v.typeSize)
            = offset + 2 + 4 + v.typeSize from by omega] at this
        rw [this]
      simp only [hw5, bind, Except.bind, pure, Except.pure]
      have hlen5 : (writeBytes buf offset
            ([a.dict.id, 2 + (attrData a secret auth).length + (4 + v.typeSize + v.lengthSize)]
              ++ bytesBE 4 v.id ++ bytesBE v.typeSize sid
              ++ bytesBE v.lengthSize (min (attrData a secret auth).length 255))).length
          = buf.length :=
        writeBytes_length _ _ _ (by simp [bytesBE_length]; omega)
      rw [copyInto, hlen5]
      rw [List.take_of_length_le (by omega)]
      have hm := writeBytes_append buf offset
        ([a.dict.id, 2 + (attrData a secret auth).length + (4 + v.typeSize + v.lengthSize)]
          ++ bytesBE 4 v.id ++ bytesBE v.typeSize sid
          ++ bytesBE v.lengthSize (min (attrData a secret auth).length 255))
        (attrData a secret auth) (by omega)
      simp only [List.length_append, List.length_cons, List.length_nil,
        Nat.zero_add, List.length_singleton, bytesBE_length] at hm
      rw [show offset + (1 + 1 + 4 + v.typeSize + v.lengthSize)
          = offset + 2 + 4 + v.typeSize + v.lengthSize from by omega] at hm
      rw [hm]
      simp only [attrWireBytes, attrWireLen, hvend, hsid, Option.getD_some]
      rw [if_pos hls0]
      simp only [Except.ok.injEq, Prod.mk.injEq]
      refine ⟨?_, by omega⟩
      simp [List.append_assoc]

/-- Every dictionary entry built with a vendor (the `DictionaryEntry`
constructor's VSA branch, `lib/dictent.js`) gets attribute id 26, the
given id as `sub_id`, and the vendor itself. -/
theorem mkEntry_vsa_fields (v : Vendor) (nm ttag : String) (fl : Option String)
    (sub : Nat) (e : DictionaryEntry)
    (hmk : mkEntry (some v) nm sub ttag fl = .ok e) :
    e.id = 26 ∧ e.sub_id = some sub ∧ e.vendor = some v := by
  simp only [mkEntry] at hmk
  split at hmk
  · exact absurd hmk (by simp)
  · simp only [Except.ok.injEq] at hmk
    subst hmk
    exact ⟨rfl, rfl, rfl⟩

/-- C9: for every vendor-specific attribute (an entry built through the
dictionary's VSA branch) whose vendor has header widths `typeSize` and
`lengthSize`, `Attribute#toWire` emits exactly
`26:u8 | length:u8 | vendor_id:u32be | sub_id:uintbe(typeSize) |
[sub_length:uintbe(lengthSize)] | data` with
`length = 2 + 4 + typeSize + lengthSize + |data|`; the sub-length field is
omitted exactly when `lengthSize = 0` and is otherwise `min(|data|, 255)`. -/
theorem C9_vsa_layout (v : Vendor) (nm ttag : String) (fl : Option String)
    (sub : Nat) (e : DictionaryEntry)
    (hmk : mkEntry (some v) nm sub ttag fl = .ok e)
    (val : AValue) (buf : List Nat) (offset : Nat) (secret auth : List Nat)
    (hlen : attrWireLen ⟨e, val⟩ secret auth ≤ 255)
    (hsub : sub < 256 ^ v.typeSize)
    (hts1 : 1 ≤ v.typeSize) (hts6 : v.typeSize ≤ 6) (hls6 : v.lengthSize ≤ 6)
    (hvid : v.id < 2 ^ 32)
    (hfit : offset + attrWireLen ⟨e, val⟩ secret auth < buf.length) :
    Attribute.toWire ⟨e, val⟩ buf offset secret auth
      = .ok (writeBytes buf offset
            (26 :: (2 + 4 + v.typeSize + v.lengthSize
                      + (attrData ⟨e, val⟩ secret auth).length) ::
              (bytesBE 4 v.id ++ bytesBE v.typeSize sub ++
                (if v.lengthSize ≠ 0 then
                  bytesBE v.lengthSize
                    (min (attrData ⟨e, val⟩ secret auth).length 255)
                 else []) ++ attrData ⟨e, val⟩ secret auth)),
          offset + (2 + 4 + v.typeSize + v.lengthSize
                      + (attrData ⟨e, val⟩ secret auth).length)) := by
  obtain ⟨h26, hsubid, hvendeq⟩ := mkEntry_vsa_fields v nm ttag fl sub e hmk
  have hWL : attrWireLen ⟨e, val⟩ secret auth
      = 2 + 4 + v.typeSize + v.lengthSize
          + (attrData ⟨e, val⟩ secret auth).length := by
    simp only [attrWireLen, hvendeq]
    omega
  have hwf : encodeWFb ⟨e, val⟩ secret auth = true := by
    simp only [encodeWFb, hvendeq, hsubid, Option.isSome_some,
      Option.getD_some, Bool.and_eq_true, decide_eq_true_eq, true_and,
      and_true]
    exact ⟨⟨by omega, hlen⟩, ⟨⟨⟨⟨hsub, hts1⟩, hts6⟩, hls6⟩, hvid⟩⟩
  have H := attr_toWire_ok ⟨e, val⟩ buf offset secret auth hwf hfit
  have hBytes : attrWireBytes ⟨e, val⟩ secret auth
      = 26 :: (2 + 4 + v.typeSize + v.lengthSize
                 + (attrData ⟨e, val⟩ secret auth).length) ::
          (bytesBE 4 v.id ++ bytesBE v.typeSize sub ++
            (if v.lengthSize ≠ 0 then
              bytesBE v.lengthSize
                (min (attrData ⟨e, val⟩ secret auth).length 255)
             else []) ++ attrData ⟨e, val⟩ secret auth) := by
    simp only [attrWireBytes, hvendeq, hsubid, Option.getD_some, h26, hWL]
  rw [H, hBytes, hWL]

/-- The vendor used in the C9 witness. -/
def wV9 : Vendor := { name := "acme", id := 9 }

/-- The VSA dictionary entry used in the C9 witness. -/
def wE9 : DictionaryEntry :=
  { name := "Acme-Attr", id := 26, sub_id := some 1, vendor := some wV9,
    type := AVType.vsa, sub_type := some AVType.octets, flags := [] }

theorem C9_witness :
    (mkEntry (some wV9) "Acme-Attr" 1 "octets" none = .ok wE9 ∧
      attrWireLen ⟨wE9, AValue.bytes [65, 66]⟩ [] [] ≤ 255 ∧
      (1 : Nat) < 256 ^ wV9.typeSize ∧
      1 ≤ wV9.typeSize ∧ wV9.typeSize ≤ 6 ∧ wV9.lengthSize ≤ 6 ∧
      wV9.id < 2 ^ 32 ∧
      0 + attrWireLen ⟨wE9, AValue.bytes [65, 66]⟩ [] []
        < (List.replicate 12 0 : List Nat).length) ∧
    Attribute.toWire ⟨wE9, AValue.bytes [65, 66]⟩ (List.replicate 12 0) 0 [] []
      = .ok ([26, 10, 0, 0, 0, 9, 1, 2, 65, 66, 0, 0], 10) :=
  ⟨by decide, by
    rw [C9_vsa_layout wV9 "Acme-Attr" "octets" none 1 wE9 (by decide)
      (AValue.bytes [65, 66]) (List.replicate 12 0) 0 [] [] (by decide)
      (by decide) (by decide) (by decide) (by decide) (by decide) (by decide)]
    decide⟩

/-! ## Decoding a well-formed attribute -/

/-- Well-formedness of a stored value for a codec: exactly the values the
codec's own `fromBuffer` reconstructs from their `toBuffer` image
(buffer-backed values of accepted length, numeric values of the codec's
width and range). -/
def valueWFb (t : AVType) (val : AValue) : Bool :=
  match val with
  | .bytes b => !t.isNumeric && decide (t.minLen ≤ b.length) &&
      decide (b.length ≤ t.maxLen)
  | .num w v => t.isNumeric && decide (w = t.numWidth) && decide (v < 256 ^ w)

/-- The codec round trip: `fromBuffer (toBuffer v) = v` for well-formed
values. -/
theorem fromBuffer_toBuffer (t : AVType) (val : AValue)
    (h : valueWFb t val = true) : t.fromBuffer val.toBuffer = .ok val := by
  cases val with
  | bytes b =>
    simp only [valueWFb, Bool.and_eq_true, Bool.not_eq_true',
      decide_eq_true_eq] at h
    obtain ⟨⟨hnum, hmin⟩, hmax⟩ := h
    rw [AValue.toBuffer, AVType.fromBuffer, if_neg (by omega),
      if_neg (by simp [hnum])]
  | num w v =>
    simp only [valueWFb, Bool.and_eq_true, decide_eq_true_eq] at h
    obtain ⟨⟨hnum, hw⟩, hv⟩ := h
    subst hw
    rw [AValue.toBuffer, AVType.fromBuffer]
    have hlen : (bytesBE t.numWidth v).length = t.numWidth := bytesBE_length _ _
    have hmin : t.minLen = t.numWidth := by
      cases t <;> simp_all [AVType.isNumeric, AVType.minLen, AVType.numWidth]
    have hmax : t.maxLen = t.numWidth := by
      cases t <;> simp_all [AVType.isNumeric, AVType.maxLen, AVType.numWidth]
    rw [if_neg (by rw [hlen, hmin, hmax]; omega), if_pos hnum]
    have hre := readBE_bytesBE [] [] t.numWidth v hv
    simp only [List.nil_append, List.append_nil, List.length_nil] at hre
    rw [hre]

/-- Every well-formed value encodes to at least one byte. -/
theorem toBuffer_len_pos (t : AVType) (val : AValue)
    (h : valueWFb t val = true) : 1 ≤ val.toBuffer.length := by
  cases val with
  | bytes b =>
    simp only [valueWFb, Bool.and_eq_true, Bool.not_eq_true',
      decide_eq_true_eq] at h
    obtain ⟨⟨hnum, hmin⟩, _⟩ := h
    have : 1 ≤ t.minLen := by
      cases t <;> simp [AVType.minLen, AVType.numWidth]
    simp only [AValue.toBuffer]
    omega
  | num w v =>
    simp only [valueWFb, Bool.and_eq_true, decide_eq_true_eq] at h
    obtain ⟨⟨hnum, hw⟩, _⟩ := h
    subst hw
    simp only [AValue.toBuffer, bytesBE_length]
    cases t <;> simp_all [AVType.isNumeric, AVType.numWidth]

/-- An unencrypted attribute's wire data is its value's buffer. -/
theorem attrData_plain (a : Attribute) (s t : List Nat)
    (henc : a.dict.encrypt = none) : attrData a s t = a.avalue.toBuffer := by
  rw [attrData, henc]
  simp

/-- The wire length of a plain (vendor-less, unencrypted) attribute. -/
theorem attrWireLen_plain (a : Attribute) (s t : List Nat)
    (henc : a.dict.encrypt = none) (hvend : a.dict.vendor = none) :
    attrWireLen a s t = 2 + a.avalue.toBuffer.length := by
  rw [attrWireLen, attrData_plain a s t henc, hvend]
  rfl

/-- The wire bytes of a plain attribute: `id | 2+|data| | data`. -/
theorem attrWireBytes_plain (a : Attribute) (s t : List Nat)
    (henc : a.dict.encrypt = none) (hvend : a.dict.vendor = none) :
    attrWireBytes a s t
      = a.dict.id :: (2 + a.avalue.toBuffer.length) :: a.avalue.toBuffer := by
  simp only [attrWireBytes, hvend, attrWireLen_plain a s t henc hvend,
    attrData_plain a s t henc, List.nil_append]

/-- Overwriting an inner region of a materialized buffer. -/
theorem writeBytes_mid (pre1 mid tail w : List Nat) (h : w.length = mid.length) :
    writeBytes (pre1 ++ (mid ++ tail)) pre1.length w = pre1 ++ (w ++ tail) := by
  rw [writeBytes, List.take_left, List.drop_append, h, List.drop_left]
  simp

theorem getD_drop (l : List Nat) (n i : Nat) :
    (l.drop n).getD i 0 = l.getD (n + i) 0 := by
  simp [List.getD_eq_getElem?_getD, List.getElem?_drop]

/-- Decoding the wire image of a plain attribute whose dictionary entry is
interned under its numeric id returns the attribute itself and leaves the
dictionary untouched. -/
theorem attr_fromWire_ok (st : DictState) (a : Attribute) (secret auth : List Nat)
    (hvend : a.dict.vendor = none) (henc : a.dict.encrypt = none)
    (hrange : ¬(a.dict.id < 1 ∨ 255 < a.dict.id))
    (hmap : mapGet st.dict (.num a.dict.id) = some a.dict)
    (hvsa : a.dict.isVSA = false)
    (hwv : valueWFb a.dict.realType a.avalue = true) :
    Attribute.fromWire st (attrWireBytes a secret auth) secret auth
      = .ok (a, st) := by
  have hwb := attrWireBytes_plain a secret auth henc hvend
  have hget : Dictionary.get st (.num a.dict.id) = .ok (a.dict, st) :=
    get_num_of_present st a.dict.id a.dict hrange hmap
  rw [Attribute.fromWire, hwb]
  rw [if_neg (by simp)]
  simp only [List.getD_cons_zero, List.getD_cons_succ, List.length_cons]
  rw [if_neg (by omega)]
  simp only [hget, bind, Except.bind, List.drop_succ_cons, List.drop_zero,
    hvsa, Bool.false_eq_true, if_false, pure, Except.pure, henc,
    fromBuffer_toBuffer a.dict.realType a.avalue hwv]

/-! ## The attribute stream -/

/-- The concatenated wire image of a list of attributes. -/
def attrsWireBytes (l : List Attribute) (secret auth : List Nat) : List Nat :=
  (l.map (fun a => attrWireBytes a secret auth)).flatten

theorem attrsWireBytes_nil (s t : List Nat) : attrsWireBytes [] s t = [] := rfl

theorem attrsWireBytes_cons (a : Attribute) (l : List Attribute)
    (s t : List Nat) :
    attrsWireBytes (a :: l) s t = attrWireBytes a s t ++ attrsWireBytes l s t := by
  simp [attrsWireBytes]

/-- The per-attribute conditions under which the round trip is exact: a
plain attribute, id in 1..255, its entry interned under its numeric id in
`stw`, and a well-formed value. -/
def plainWFb (stw : DictState) (a : Attribute) : Prop :=
  a.dict.vendor = none ∧ a.dict.encrypt = none ∧
    ¬(a.dict.id < 1 ∨ 255 < a.dict.id) ∧
    mapGet stw.dict (.num a.dict.id) = some a.dict ∧
    a.dict.isVSA = false ∧
    valueWFb a.dict.realType a.avalue = true

/-- `parseAttributes`' loop consumes a stream of well-formed plain
attributes one frame at a time, returning exactly the encoded attributes
and the unchanged dictionary, for any fuel above the attribute count. -/
theorem parseAttributesAux_ok (st stw : DictState) (buf secret auth : List Nat)
    (l : List Attribute) :
    ∀ (fuel n : Nat) (acc : List Attribute),
    buf.drop n = attrsWireBytes l secret auth →
    l.length < fuel →
    (∀ a ∈ l, plainWFb stw a) →
    parseAttributesAux st buf secret auth fuel n acc stw
      = some (.ok (acc ++ l, stw)) := by
  induction l with
  | nil =>
    intro fuel n acc hdrop hfuel _
    cases fuel with
    | zero => omega
    | succ f =>
      rw [attrsWireBytes_nil] at hdrop
      have hle : buf.length ≤ n := by
        have := congrArg List.length hdrop
        simp only [List.length_drop, List.length_nil] at this
        by_contra hc
        omega
      rw [parseAttributesAux, if_neg (by omega)]
      simp
  | cons a l' ih =>
    intro fuel n acc hdrop hfuel hall
    obtain ⟨hvend, henc, hrange, hmap, hvsa, hwv⟩ :=
      hall a (List.mem_cons_self a l')
    cases fuel with
    | zero => simp at hfuel
    | succ f =>
      rw [attrsWireBytes_cons] at hdrop
      have hwb := attrWireBytes_plain a secret auth henc hvend
      have h1 : 1 ≤ a.avalue.toBuffer.length := toBuffer_len_pos _ _ hwv
      have hWlen : (attrWireBytes a secret auth).length
          = 2 + a.avalue.toBuffer.length := by
        rw [hwb]
        simp
        omega
      have hdlen : (buf.drop n).length = buf.length - n := List.length_drop n buf
      have hlen_ge : 3 ≤ (buf.drop n).length := by
        rw [hdrop]
        simp only [List.length_append, hWlen]
        omega
      have hn : n < buf.length := by omega
      have hgd : buf.getD (n + 1) 0 = 2 + a.avalue.toBuffer.length := by
        have h := getD_drop buf n 1
        rw [hdrop, hwb] at h
        simp only [List.cons_append, List.getD_cons_succ,
          List.getD_cons_zero] at h
        omega
      simp only [parseAttributesAux]
      rw [if_pos hn, if_pos (by omega), hgd]
      have hdata : (buf.drop n).take (2 + a.avalue.toBuffer.length)
          = attrWireBytes a secret auth := by
        rw [hdrop, ← hWlen, List.take_left]
      rw [hdata]
      simp only [attr_fromWire_ok stw a secret auth hvend henc hrange hmap
        hvsa hwv]
      have hdrop2 : buf.drop (n + (2 + a.avalue.toBuffer.length))
          = attrsWireBytes l' secret auth := by
        have h := congrArg (List.drop (2 + a.avalue.toBuffer.length)) hdrop
        rw [List.drop_drop, ← hWlen, List.drop_left] at h
        rw [hWlen] at h
        exact h
      have := ih f (n + (2 + a.avalue.toBuffer.length)) (acc ++ [a]) hdrop2
        (by simp at hfuel ⊢; omega)
        (fun a' ha' => hall a' (List.mem_cons_of_mem a ha'))
      rw [this]
      simp

/-- Serializing an attribute list writes the concatenation of the
attributes' wire images, in order. -/
theorem attrsList_toWire_ok (secret auth : List Nat) (l : List Attribute) :
    ∀ (buf : List Nat) (offset : Nat),
    (∀ a ∈ l, encodeWFb a secret auth = true) →
    offset + (attrsWireBytes l secret auth).length < buf.length →
    List.foldlM (fun bo a => Attribute.toWire a bo.1 bo.2 secret auth)
        ((buf, offset) : List Nat × Nat) l
      = .ok (writeBytes buf offset (attrsWireBytes l secret auth),
             offset + (attrsWireBytes l secret auth).length) := by
  induction l with
  | nil =>
    intro buf offset _ _
    simp [List.foldlM, attrsWireBytes_nil, writeBytes_nil, pure, Except.pure]
  | cons a l' ih =>
    intro buf offset hwf hfit
    rw [attrsWireBytes_cons] at hfit ⊢
    have hWa : (attrWireBytes a secret auth).length = attrWireLen a secret auth :=
      attrWireBytes_length a secret auth
    have hstep := attr_toWire_ok a buf offset secret auth
      (hwf a (List.mem_cons_self a l'))
      (by simp only [List.length_append] at hfit; omega)
    simp only [List.foldlM_cons, hstep, bind, Except.bind]
    have hlen1 : (writeBytes buf offset (attrWireBytes a secret auth)).length
        = buf.length :=
      writeBytes_length _ _ _ (by simp only [List.length_append] at hfit; omega)
    have hrec := ih (writeBytes buf offset (attrWireBytes a secret auth))
      (offset + attrWireLen a secret auth)
      (fun a' ha' => hwf a' (List.mem_cons_of_mem a ha'))
      (by rw [hlen1]; simp only [List.length_append] at hfit; omega)
    rw [hrec]
    rw [show offset + attrWireLen a secret auth = offset
        + (attrWireBytes a secret auth).length from by rw [hWa]]
    rw [writeBytes_append buf offset _ _
      (by simp only [List.length_append] at hfit; omega)]
    simp only [List.length_append]
    rw [show offset + (attrWireBytes a secret auth).length
          + (attrsWireBytes l' secret auth).length
        = offset + ((attrWireBytes a secret auth).length
          + (attrsWireBytes l' secret auth).length) from by omega]

/-! ## The packet's wire image -/

/-- Writing at the end of the materialized prefix of a zero-filled
buffer, replicate form. -/
theorem writeBytes_pre (pre : List Nat) (k : Nat) (w : List Nat) :
    writeBytes (pre ++ List.replicate k 0) pre.length w
      = (pre ++ w) ++ List.replicate (k - w.length) 0 := by
  rw [writeBytes_grow, List.drop_replicate, List.append_assoc]

/-- The serialized attribute section of a packet. -/
def packetBody (p : RadiusPacket) (secret : List Nat) : List Nat :=
  attrsWireBytes p.attributes.attrs secret p.authenticator

/-- The packet bytes before the response authenticator is patched in:
code, identifier, the back-patched length, the request authenticator, and
the attributes. -/
def packetPre (p : RadiusPacket) (secret : List Nat) : List Nat :=
  p.code :: p.identifier ::
    (bytesBE 2 (20 + (packetBody p secret).length)
      ++ (p.authenticator ++ packetBody p secret))

/-- The final response wire image: `packetPre` with bytes 4..20 replaced
by `MD5(packetPre ∥ secret)`. -/
def packetWire (p : RadiusPacket) (secret : List Nat) : List Nat :=
  p.code :: p.identifier ::
    (bytesBE 2 (20 + (packetBody p secret).length)
      ++ (MD5 (packetPre p secret ++ secret) ++ packetBody p secret))

/-- `RadiusPacket#toWire(secret, true)` produces exactly `packetWire`. -/
theorem packet_toWire_ok (p : RadiusPacket) (secret : List Nat)
    (hcode : p.code ≤ 255) (hident : p.identifier ≤ 255)
    (hauth : p.authenticator.length = 16)
    (hwf : ∀ a ∈ p.attributes.attrs, encodeWFb a secret p.authenticator = true)
    (hfit : 20 + (packetBody p secret).length < 4096) :
    RadiusPacket.toWire p secret true = .ok (packetWire p secret) := by
  have hw1 : writeUInt8 (List.replicate 4096 0) p.code 0
      = .ok ([p.code] ++ List.replicate 4095 0, 1) := by
    rw [writeUInt8, if_pos ⟨hcode, by simp only [List.length_replicate]; omega⟩]
    have h := writeBytes_pre [] 4096 [p.code]
    simp only [List.nil_append, List.length_nil, List.length_singleton] at h
    rw [h]
  have hw2 : writeUInt8 ([p.code] ++ List.replicate 4095 0) p.identifier 1
      = .ok ([p.code, p.identifier] ++ List.replicate 4094 0, 2) := by
    rw [writeUInt8, if_pos ⟨hident,
      by simp only [List.length_append, List.length_singleton,
        List.length_replicate]; omega⟩]
    have h := writeBytes_pre [p.code] 4095 [p.identifier]
    simp only [List.length_singleton] at h
    rw [h]
    norm_num
  have hw3 : writeUInt16BE ([p.code, p.identifier] ++ List.replicate 4094 0) 0 2
      = .ok ([p.code, p.identifier, 0, 0] ++ List.replicate 4092 0, 4) := by
    rw [writeUInt16BE, if_pos ⟨by norm_num,
      by simp only [List.length_append, List.length_cons, List.length_nil,
        List.length_replicate]; omega⟩]
    have h := writeBytes_pre [p.code, p.identifier] 4094 (bytesBE 2 0)
    rw [show ([p.code, p.identifier] : List Nat).length = 2 from by simp,
      bytesBE_length] at h
    rw [h]
    norm_num [show bytesBE 2 0 = [0, 0] from rfl]
  have hcopy : copyInto p.authenticator
        ([p.code, p.identifier, 0, 0] ++ List.replicate 4092 0) 4
      = ([p.code, p.identifier, 0, 0] ++ p.authenticator)
          ++ List.replicate 4076 0 := by
    rw [copyInto]
    have hlP3 : ([p.code, p.identifier, 0, 0]
        ++ List.replicate 4092 0).length = 4096 := by
      simp only [List.length_append, List.length_cons, List.length_nil,
        List.length_replicate]
    rw [hlP3]
    rw [List.take_of_length_le (by omega)]
    have h := writeBytes_pre [p.code, p.identifier, 0, 0] 4092 p.authenticator
    rw [show ([p.code, p.identifier, 0, 0] : List Nat).length = 4 from by simp,
      hauth] at h
    rw [h]
  have hattrs : AttributeList.toWire p.attributes
        (([p.code, p.identifier, 0, 0] ++ p.authenticator)
          ++ List.replicate 4076 0) 20 secret p.authenticator
      = .ok ((([p.code, p.identifier, 0, 0] ++ p.authenticator)
            ++ packetBody p secret)
            ++ List.replicate (4076 - (packetBody p secret).length) 0,
          20 + (packetBody p secret).length) := by
    rw [AttributeList.toWire]
    have hb := attrsList_toWire_ok secret p.authenticator p.attributes.attrs
      ((([p.code, p.identifier, 0, 0] ++ p.authenticator)
        ++ List.replicate 4076 0)) 20 hwf
      (by
        simp only [List.length_append, List.length_replicate, List.length_cons,
          List.length_nil, hauth]
        have hpb : (attrsWireBytes p.attributes.attrs secret p.authenticator).length
            = (packetBody p secret).length := rfl
        omega)
    rw [hb]
    have h := writeBytes_pre ([p.code, p.identifier, 0, 0] ++ p.authenticator)
      4076 (attrsWireBytes p.attributes.attrs secret p.authenticator)
    rw [show (([p.code, p.identifier, 0, 0] ++ p.authenticator)).length = 20
        from by
      simp only [List.length_append, List.length_cons, List.length_nil, hauth]] at h
    rw [h]
    rfl
  have hw6 : writeUInt16BE
        ((([p.code, p.identifier, 0, 0] ++ p.authenticator)
          ++ packetBody p secret)
          ++ List.replicate (4076 - (packetBody p secret).length) 0)
        (20 + (packetBody p secret).length) 2
      = .ok ([p.code, p.identifier]
            ++ (bytesBE 2 (20 + (packetBody p secret).length)
              ++ (p.authenticator ++ (packetBody p secret
                ++ List.replicate (4076 - (packetBody p secret).length) 0))),
          4) := by
    rw [writeUInt16BE, if_pos ⟨by omega,
      by simp only [List.length_append, List.length_replicate,
        List.length_cons, List.length_nil, hauth]; omega⟩]
    have hshape : (([p.code, p.identifier, 0, 0] ++ p.authenticator)
          ++ packetBody p secret)
          ++ List.replicate (4076 - (packetBody p secret).length) 0
        = [p.code, p.identifier] ++ ([0, 0] ++ (p.authenticator
            ++ (packetBody p secret
              ++ List.replicate (4076 - (packetBody p secret).length) 0))) := by
      simp
    rw [hshape]
    have h := writeBytes_mid [p.code, p.identifier] [0, 0]
      (p.authenticator ++ (packetBody p secret
        ++ List.replicate (4076 - (packetBody p secret).length) 0))
      (bytesBE 2 (20 + (packetBody p secret).length))
      (by simp [bytesBE_length])
    rw [show ([p.code, p.identifier] : List Nat).length = 2 from by simp] at h
    rw [h]
  have hplen : (packetPre p secret).length = 20 + (packetBody p secret).length := by
    simp only [packetPre, List.length_cons, List.length_append, bytesBE_length,
      hauth]
    omega
  have htake : ([p.code, p.identifier]
        ++ (bytesBE 2 (20 + (packetBody p secret).length)
          ++ (p.authenticator ++ (packetBody p secret
            ++ List.replicate (4076 - (packetBody p secret).length) 0)))).take
        (20 + (packetBody p secret).length)
      = packetPre p secret := by
    have hshape : [p.code, p.identifier]
          ++ (bytesBE 2 (20 + (packetBody p secret).length)
            ++ (p.authenticator ++ (packetBody p secret
              ++ List.replicate (4076 - (packetBody p secret).length) 0)))
        = packetPre p secret
            ++ List.replicate (4076 - (packetBody p secret).length) 0 := by
      simp [packetPre]
    rw [hshape, ← hplen, List.take_left]
  have hfinal : copyInto (MD5 (packetPre p secret ++ secret))
        (packetPre p secret) 4 = packetWire p secret := by
    have hshape : packetPre p secret
        = ([p.code, p.identifier]
            ++ bytesBE 2 (20 + (packetBody p secret).length))
          ++ (p.authenticator ++ packetBody p secret) := by
      simp [packetPre]
    rw [copyInto, hplen, List.take_of_length_le (by rw [MD5_length]; omega)]
    have htk : (packetPre p secret).take 4
        = [p.code, p.identifier]
            ++ bytesBE 2 (20 + (packetBody p secret).length) := by
      rw [hshape]
      rw [show (4 : Nat) = (([p.code, p.identifier]
          ++ bytesBE 2 (20 + (packetBody p secret).length))).length
        from by
          simp only [List.length_append, List.length_cons, List.length_nil,
            bytesBE_length]]
      exact List.take_left _ _
    have hdp : (packetPre p secret).drop (4 + 16) = packetBody p secret := by
      rw [hshape]
      rw [show (4 + 16 : Nat) = (([p.code, p.identifier]
            ++ bytesBE 2 (20 + (packetBody p secret).length))).length
          + p.authenticator.length from by
        simp only [List.length_append, List.length_cons, List.length_nil,
          bytesBE_length, hauth]]
      rw [List.drop_append, List.drop_left]
    rw [writeBytes, MD5_length, htk, hdp]
    simp [packetWire, List.append_assoc]
  rw [RadiusPacket.toWire]
  simp only [hw1, bind, Except.bind, hw2, hw3, hcopy, hattrs, hw6, pure,
    Except.pure, if_true, htake, hfinal]

/-- An unencrypted attribute's wire image does not depend on the secret
or authenticator. -/
theorem attrWireBytes_indep (a : Attribute) (s t su tu : List Nat)
    (henc : a.dict.encrypt = none) :
    attrWireBytes a s t = attrWireBytes a su tu := by
  simp only [attrWireBytes, attrWireLen, attrData_plain _ _ _ henc]

/-- Neither does a list of unencrypted attributes'. -/
theorem attrsWireBytes_indep (s t su tu : List Nat) (l : List Attribute)
    (h : ∀ a ∈ l, a.dict.encrypt = none) :
    attrsWireBytes l s t = attrsWireBytes l su tu := by
  induction l with
  | nil => rfl
  | cons a l' ih =>
    rw [attrsWireBytes_cons, attrsWireBytes_cons,
      attrWireBytes_indep a s t su tu (h a (List.mem_cons_self a l')),
      ih (fun a' ha' => h a' (List.mem_cons_of_mem a ha'))]

/-- `RadiusPacket.fromWire` on `packetWire`: the decoded packet carries
the original code, identifier and attribute list (frozen), the response
authenticator, and the dictionary is unchanged. -/
theorem packet_fromWire_ok (st : DictState) (p : RadiusPacket)
    (secret : List Nat) (fuel : Nat)
    (hauth : p.authenticator.length = 16)
    (hfit : 20 + (packetBody p secret).length < 4096)
    (hcv : codeTable.any (fun q => q.1 = p.code) = true)
    (hident : p.identifier ≤ 255)
    (hpl : ∀ a ∈ p.attributes.attrs, plainWFb st a)
    (hfuel : p.attributes.attrs.length < fuel) :
    RadiusPacket.fromWire st (packetWire p secret) secret fuel
      = some (.ok ({ code := p.code, identifier := p.identifier,
                     authenticator := MD5 (packetPre p secret ++ secret),
                     attributes := { attrs := p.attributes.attrs,
                                     readonly := true } }, st)) := by
  have hlen : (packetWire p secret).length
      = 20 + (packetBody p secret).length := by
    simp only [packetWire, List.length_cons, List.length_append,
      bytesBE_length, MD5_length]
    omega
  have hshape2 : packetWire p secret
      = [p.code, p.identifier]
          ++ bytesBE 2 (20 + (packetBody p secret).length)
          ++ (MD5 (packetPre p secret ++ secret) ++ packetBody p secret) := by
    simp [packetWire]
  have hshape3 : packetWire p secret
      = (([p.code, p.identifier]
          ++ bytesBE 2 (20 + (packetBody p secret).length))
          ++ MD5 (packetPre p secret ++ secret)) ++ packetBody p secret := by
    simp [packetWire]
  have hrd : readBE (packetWire p secret) 2 2
      = 20 + (packetBody p secret).length := by
    have h := readBE_bytesBE [p.code, p.identifier]
      (MD5 (packetPre p secret ++ secret) ++ packetBody p secret) 2
      (20 + (packetBody p secret).length) (by omega)
    rw [show ([p.code, p.identifier] : List Nat).length = 2 from by simp] at h
    rw [hshape2]
    exact h
  have hsl : jsSlice (packetWire p secret) 4 20
      = MD5 (packetPre p secret ++ secret) := by
    rw [jsSlice, hshape3]
    rw [List.take_left' (show ((([p.code, p.identifier]
        ++ bytesBE 2 (20 + (packetBody p secret).length))
        ++ MD5 (packetPre p secret ++ secret))).length = 20 from by
      simp only [List.length_append, List.length_cons, List.length_nil,
        bytesBE_length, MD5_length])]
    rw [List.drop_left' (show (([p.code, p.identifier]
        ++ bytesBE 2 (20 + (packetBody p secret).length))).length = 4 from by
      simp only [List.length_append, List.length_cons, List.length_nil,
        bytesBE_length])]
  have hdropw : (packetWire p secret).drop 20 = packetBody p secret := by
    rw [hshape3]
    rw [List.drop_left' (show ((([p.code, p.identifier]
        ++ bytesBE 2 (20 + (packetBody p secret).length))
        ++ MD5 (packetPre p secret ++ secret))).length = 20 from by
      simp only [List.length_append, List.length_cons, List.length_nil,
        bytesBE_length, MD5_length])]
  have hdrop20 : (packetWire p secret).drop 20
      = attrsWireBytes p.attributes.attrs secret
          (MD5 (packetPre p secret ++ secret)) := by
    rw [hdropw]
    exact attrsWireBytes_indep secret p.authenticator secret _
      p.attributes.attrs
      (fun a ha => ((hpl a ha).2.1))
  have hpar := parseAttributesAux_ok st st (packetWire p secret) secret
    (MD5 (packetPre p secret ++ secret)) p.attributes.attrs fuel 20 []
    hdrop20 hfuel hpl
  have hattrs : AttributeList.fromWire st (packetWire p secret) 20 secret
      (jsSlice (packetWire p secret) 4 20) fuel
      = some (.ok ({ attrs := p.attributes.attrs, readonly := true }, st)) := by
    rw [AttributeList.fromWire, parseAttributes, hsl, hpar]
    simp
  have hg0 : (packetWire p secret).getD 0 0 = p.code := by
    rw [packetWire]
    simp
  have hg1 : (packetWire p secret).getD 1 0 = p.identifier := by
    rw [packetWire]
    simp
  have hbn : Code.byNum p.code = some p.code := by
    rw [Code.byNum, if_pos hcv]
  have hbuild : RadiusPacket.build (Code.byNum ((packetWire p secret).getD 0 0))
      ((packetWire p secret).getD 1 0) (jsSlice (packetWire p secret) 4 20)
      { attrs := p.attributes.attrs, readonly := true }
      = .ok { code := p.code, identifier := p.identifier,
              authenticator := MD5 (packetPre p secret ++ secret),
              attributes := { attrs := p.attributes.attrs,
                              readonly := true } } := by
    rw [hg0, hg1, hbn, hsl, RadiusPacket.build]
    rw [if_neg (by simp [hcv]), if_neg (by omega),
      if_neg (by rw [MD5_length]; simp)]
  rw [RadiusPacket.fromWire]
  rw [if_neg (by rw [hlen]; omega), if_neg (by rw [hrd, hlen]; omega)]
  simp only [hattrs, hbuild]

instance (stw : DictState) (a : Attribute) : Decidable (plainWFb stw a) := by
  unfold plainWFb
  exact inferInstance

/-- C1 (amended): for every packet built from a valid code, an 8-bit
identifier, a 16-byte authenticator and a list of PLAIN attributes —
vendor-less, not marked `encrypt=1`, interned in the dictionary under
their numeric ids, with codec-well-formed values — that fits in the
4096-byte scratch buffer, `fromWire(toWire(p, secret, true), secret)`
yields a packet with the same code, the same identifier and the identical
(frozen) attribute list — hence the same count and per-attribute
`(name, value)` pairs in order — whose authenticator is the response
authenticator `MD5(header-with-request-authenticator ∥ attributes ∥
secret)` recomputed over the encoded bytes, with the dictionary unchanged.
The restriction to unencrypted attributes is necessary: an `encrypt=1`
attribute decodes through the response authenticator instead of the
request authenticator used to encode it (see the counterexample). -/
theorem C1_roundtrip_amended (st : DictState) (p : RadiusPacket)
    (secret : List Nat) (fuel : Nat)
    (hcode : p.code ≤ 255) (hident : p.identifier ≤ 255)
    (hauth : p.authenticator.length = 16)
    (hcv : codeTable.any (fun q => q.1 = p.code) = true)
    (hwf : ∀ a ∈ p.attributes.attrs, encodeWFb a secret p.authenticator = true)
    (hpl : ∀ a ∈ p.attributes.attrs, plainWFb st a)
    (hfit : 20 + (packetBody p secret).length < 4096)
    (hfuel : p.attributes.attrs.length < fuel) :
    RadiusPacket.toWire p secret true = .ok (packetWire p secret) ∧
    RadiusPacket.fromWire st (packetWire p secret) secret fuel
      = some (.ok ({ code := p.code, identifier := p.identifier,
                     authenticator := MD5 (packetPre p secret ++ secret),
                     attributes := { attrs := p.attributes.attrs,
                                     readonly := true } }, st)) :=
  ⟨packet_toWire_ok p secret hcode hident hauth hwf hfit,
   packet_fromWire_ok st p secret fuel hauth hfit hcv hident hpl hfuel⟩

/-- The User-Name entry of the C1 witness. -/
def eUN : DictionaryEntry :=
  { name := "User-Name", id := 1, type := AVType.string }

/-- The dictionary state of the C1 witness. -/
def stC1 : DictState :=
  { dict := [(DKey.num 1, eUN), (DKey.str "user-name", eUN)],
    vendors := [], vsas := [] }

/-- The packet of the C1 witness: an Access-Accept carrying
`User-Name = "abc"`. -/
def pC1 : RadiusPacket :=
  { code := 2, identifier := 3, authenticator := List.replicate 16 0,
    attributes :=
      { attrs := [{ dict := eUN, avalue := AValue.bytes [97, 98, 99] }] } }

/-- The shared secret of the C1 witness and counterexample. -/
def secretC1 : List Nat := [115, 101, 99]

theorem C1_witness :
    (pC1.code ≤ 255 ∧ pC1.identifier ≤ 255 ∧
      pC1.authenticator.length = 16 ∧
      codeTable.any (fun q => q.1 = pC1.code) = true ∧
      (∀ a ∈ pC1.attributes.attrs,
        encodeWFb a secretC1 pC1.authenticator = true) ∧
      (∀ a ∈ pC1.attributes.attrs, plainWFb stC1 a) ∧
      20 + (packetBody pC1 secretC1).length < 4096 ∧
      pC1.attributes.attrs.length < 2) ∧
    RadiusPacket.toWire pC1 secretC1 true = .ok (packetWire pC1 secretC1) ∧
    RadiusPacket.fromWire stC1 (packetWire pC1 secretC1) secretC1 2
      = some (.ok ({ code := pC1.code, identifier := pC1.identifier,
                     authenticator := MD5 (packetPre pC1 secretC1 ++ secretC1),
                     attributes := { attrs := pC1.attributes.attrs,
                                     readonly := true } }, stC1)) := by
  have h := C1_roundtrip_amended stC1 pC1 secretC1 2 (by decide) (by decide)
    (by decide) (by decide) (by decide) (by decide) (by decide) (by decide)
  exact ⟨⟨by decide, by decide, by decide, by decide, by decide, by decide,
    by decide, by decide⟩, h.1, h.2⟩

/-- The User-Password (`encrypt=1`) entry of the C1 counterexample. -/
def eUP : DictionaryEntry :=
  { name := "User-Password", id := 2, type := AVType.string,
    flags := [("encrypt", 1)] }

/-- The dictionary state of the C1 counterexample. -/
def stUP : DictState :=
  { dict := [(DKey.num 2, eUP), (DKey.str "user-password", eUP)],
    vendors := [], vsas := [] }

/-- The packet of the C1 counterexample: `User-Password = "A"` with a
zero request authenticator. -/
def pktUP : RadiusPacket :=
  { code := 2, identifier := 0, authenticator := List.replicate 16 0,
    attributes :=
      { attrs := [{ dict := eUP, avalue := AValue.bytes [65] }] } }

/-- The bytes `pktUP.toWire(secretC1, true)` produces. -/
def wireUP : List Nat :=
  [2, 0, 0, 38, 70, 241, 95, 200, 157, 18, 73, 100, 145, 218, 205, 85,
   177, 54, 65, 138, 2, 18, 216, 147, 206, 246, 210, 134, 199, 110, 192,
   134, 255, 70, 168, 160, 198, 15]

/-- What `fromWire` makes of those bytes: the User-Password attribute
decodes to garbage because the decoder XORs against the response
authenticator (bytes 4..20 of the wire) instead of the request
authenticator used to encode. -/
def decodedUP : RadiusPacket :=
  { code := 2, identifier := 0,
    authenticator := [70, 241, 95, 200, 157, 18, 73, 100, 145, 218, 205,
      85, 177, 54, 65, 138],
    attributes :=
      { attrs := [⟨eUP, AValue.bytes [171, 7, 252, 18, 64, 209, 118, 169,
          146, 230, 57, 129, 94, 229, 14, 159]⟩],
        readonly := true } }

set_option maxRecDepth 8000 in
/-- C1 (counterexample): a packet with an `encrypt=1` attribute encodes
and decodes without error, but the decoded attribute's value differs from
the original — the unamended claim's "same (name, value) pairs" fails. -/
theorem C1_counterexample :
    RadiusPacket.toWire pktUP secretC1 true = .ok wireUP ∧
    RadiusPacket.fromWire stUP wireUP secretC1 2
      = some (.ok (decodedUP, stUP)) ∧
    decodedUP.attributes.attrs.map (fun a => a.avalue)
      ≠ pktUP.attributes.attrs.map (fun a => a.avalue) := by
  refine ⟨?_, by decide, by decide⟩
  have h := packet_toWire_ok pktUP secretC1 (by decide) (by decide)
    (by decide) (by decide) (by decide)
  rw [h]
  decide

end IscRadius
